import Mathlib

/-!
Shallow embedding of the wcs2kml geometric core (wraparound utilities,
bounding-box extremum finder, sky projector, quadtree regionator), translated
from `src/wraparound.h`, `src/trunk/boundingbox.cc`,
`src/trunk/src/google/boundingbox.h`, `src/trunk/src/google/skyprojection.cc`
and `src/regionator.cc`.  C++ `double` arithmetic is modelled by exact `ℚ`
(and by `ℝ` where the source uses `sqrt`/`acos`); C++ `static_cast<int>` is
modelled by truncation toward zero.
-/

/-- Modelled from the spec: the numeric value of `WrapAround::MAX_DELTA_RA` is
declared in `src/wraparound.h` but its defining translation unit is not in
`src/`; §4.1 of the spec fixes the threshold at roughly 300 degrees ("no
single image legitimately spans that much sky, e.g. > ~300°"), which also
matches the unit tests (`MakeRaMonotonic(5) = 365`, `MakeRaMonotonic(355) =
355`, `ImageWrapsAround(10, 350)` true). -/
def maxDeltaRa : ℚ := 300

/-- Modelled from the spec: the numeric value of `WrapAround::THREE_SIXTY` is
declared in `src/wraparound.h` but its defining translation unit is not in
`src/`; the header comments ("proper 0-360 bounds", "wrap from 360 back to
0") and the unit tests (`RestoreWrapAround(5*360+5) = 5`) fix it at 360. -/
def threeSixty : ℚ := 360

/-- `WrapAround::ImageWrapsAround` from `src/wraparound.h`. -/
def imageWrapsAround (ra_min ra_max : ℚ) : Bool :=
  |ra_min - ra_max| > maxDeltaRa

/-- `WrapAround::MakeRaMonotonic` from `src/wraparound.h`. -/
def makeRaMonotonic (ra : ℚ) : ℚ :=
  if ra < maxDeltaRa then ra + threeSixty else ra

/-- First `while` loop of `WrapAround::RestoreWrapAround`: repeatedly
subtract 360 while the value exceeds 360. -/
def restoreDown (ra : ℚ) : ℚ :=
  if ra > threeSixty then restoreDown (ra - threeSixty) else ra
termination_by (⌈ra / threeSixty⌉).toNat
decreasing_by
  rename_i hgt
  have h1 : (1 : ℚ) < ra / threeSixty := by
    rw [lt_div_iff₀ (by norm_num [threeSixty])]
    simpa [threeSixty] using hgt
  have h2 : (1 : ℤ) < ⌈ra / threeSixty⌉ := by
    exact_mod_cast lt_of_lt_of_le h1 (Int.le_ceil _)
  have h3 : (ra - threeSixty) / threeSixty = ra / threeSixty - 1 := by
    field_simp [threeSixty]
  rw [h3, Int.ceil_sub_one]
  omega

/-- Second `while` loop of `WrapAround::RestoreWrapAround`: repeatedly add
360 while the value is negative. -/
def restoreUp (ra : ℚ) : ℚ :=
  if ra < 0 then restoreUp (ra + threeSixty) else ra
termination_by (⌈-ra / threeSixty⌉).toNat
decreasing_by
  rename_i hlt
  have h1 : (0 : ℚ) < -ra / threeSixty := by
    apply div_pos (by linarith) (by norm_num [threeSixty])
  have h2 : (0 : ℤ) < ⌈-ra / threeSixty⌉ := by
    exact_mod_cast lt_of_lt_of_le h1 (Int.le_ceil _)
  have h3 : -(ra + threeSixty) / threeSixty = -ra / threeSixty - 1 := by
    field_simp [threeSixty]
    ring
  rw [h3, Int.ceil_sub_one]
  omega

/-- `WrapAround::RestoreWrapAround` from `src/wraparound.h`: the two `while`
loops run in sequence. -/
def restoreWrapAround (ra : ℚ) : ℚ :=
  restoreUp (restoreDown ra)

/-- `Point` from `src/trunk/src/google/boundingbox.h`: spherical coordinates
(ra, dec) in degrees together with the corresponding pixel coordinates. -/
structure Point where
  ra : ℚ
  dec : ℚ
  x : ℚ
  y : ℚ
deriving DecidableEq, Repr

/-- The opaque projection service (`WcsProjection` handle, §6 of the spec):
`toRaDec` is pixel-to-sky and always succeeds; `toPixel` is sky-to-pixel and
additionally reports whether the point lies inside the image. -/
structure WcsProjection where
  toRaDec : ℚ → ℚ → ℚ × ℚ
  toPixel : ℚ → ℚ → Bool × ℚ × ℚ

/-- `BoundingBox` state from `src/trunk/src/google/boundingbox.h`. -/
structure BoundingBox where
  ra_min : Point
  ra_max : Point
  dec_min : Point
  dec_max : Point
  is_wrapped : Bool
  crosses_north_pole : Bool
  crosses_south_pole : Bool
deriving DecidableEq, Repr

/-- Sanity-check sentinel `LARGE_BAD_VALUE` from `src/trunk/boundingbox.cc`. -/
def largeBadValue : ℚ := 999

/-- Sanity-check sentinel `SMALL_BAD_VALUE` from `src/trunk/boundingbox.cc`. -/
def smallBadValue : ℚ := -999

/-- `NORTH_POLE` from `src/trunk/boundingbox.cc`: 89.9999999, slightly shy
of 90 (written with `mkRat` so that the kernel can evaluate it). -/
def northPole : ℚ := mkRat 899999999 10000000

/-- `SOUTH_POLE` from `src/trunk/boundingbox.cc`: -89.9999999. -/
def southPole : ℚ := mkRat (-899999999) 10000000

/-- A bounding box with all points zeroed and all flags false (the state of
a freshly constructed `BoundingBox`). -/
def zeroBox : BoundingBox :=
  ⟨⟨0, 0, 0, 0⟩, ⟨0, 0, 0, 0⟩, ⟨0, 0, 0, 0⟩, ⟨0, 0, 0, 0⟩,
   false, false, false⟩

/-- The point a perimeter pixel (x, y) contributes inside
`BoundingBox::UpdateExtrema`: `ToRaDec` is called, and when the box is
flagged as wrapped the ra is first made monotonic; the stored point keeps
the (possibly adjusted) ra, the dec and the pixel coordinates. -/
def samplePoint (wcs : WcsProjection) (wrapped : Bool) (p : ℚ × ℚ) : Point :=
  let rd := wcs.toRaDec p.1 p.2
  ⟨if wrapped then makeRaMonotonic rd.1 else rd.1, rd.2, p.1, p.2⟩

/-- One min/max update of `BoundingBox::UpdateExtrema` on an extremum pair
`(minPt, maxPt)` compared through `value`: a strictly larger value replaces
the max, `else` a strictly smaller value replaces the min. -/
def extremaStep (value : Point → ℚ) (s : Point × Point) (pt : Point) :
    Point × Point :=
  if value pt > value s.2 then (s.1, pt)
  else if value pt < value s.1 then (pt, s.2)
  else s

/-- `BoundingBox::UpdateExtrema` from `src/trunk/boundingbox.cc`: the ra pair
and the dec pair are updated independently with the same sampled point, and
the flags are untouched. -/
def updateExtrema (wcs : WcsProjection) (b : BoundingBox) (x y : ℚ) :
    BoundingBox :=
  let pt := samplePoint wcs b.is_wrapped (x, y)
  let r := extremaStep Point.ra (b.ra_min, b.ra_max) pt
  let d := extremaStep Point.dec (b.dec_min, b.dec_max) pt
  { b with ra_min := r.1, ra_max := r.2, dec_min := d.1, dec_max := d.2 }

/-- The perimeter walk order of
`BoundingBox::FindBoundingBoxForKnownWrapped`: edge y = 1 (x = 1..width),
edge y = height (x = 1..width), edge x = 1 (y = 1..height), edge x = width
(y = 1..height). -/
def perimeterPixels (width height : ℕ) : List (ℚ × ℚ) :=
  ((List.range width).map fun i : ℕ => (((i : ℚ) + 1), (1 : ℚ))) ++
  ((List.range width).map fun i : ℕ => (((i : ℚ) + 1), (height : ℚ))) ++
  ((List.range height).map fun i : ℕ => ((1 : ℚ), ((i : ℚ) + 1))) ++
  ((List.range height).map fun i : ℕ => (((width : ℚ)), ((i : ℚ) + 1)))

/-- The intentionally-bad sentinel initialization at the top of
`BoundingBox::FindBoundingBoxForKnownWrapped`. -/
def initExtrema (b : BoundingBox) : BoundingBox :=
  { b with
    ra_min := ⟨largeBadValue, largeBadValue, 0, 0⟩
    ra_max := ⟨smallBadValue, smallBadValue, 0, 0⟩
    dec_min := ⟨largeBadValue, largeBadValue, 0, 0⟩
    dec_max := ⟨smallBadValue, smallBadValue, 0, 0⟩ }

/-- `BoundingBox::FindBoundingBoxForKnownWrapped` from
`src/trunk/boundingbox.cc`: reset the extrema to sentinels, then update them
with every perimeter pixel in walk order. -/
def findBoundingBoxForKnownWrapped (wcs : WcsProjection) (width height : ℕ)
    (b : BoundingBox) : BoundingBox :=
  (perimeterPixels width height).foldl
    (fun acc p => updateExtrema wcs acc p.1 p.2) (initExtrema b)

/-- The pole-probing step at the end of `BoundingBox::FindBoundingBox`: probe
(ra = 0, dec = NORTH_POLE) and (ra = 0, dec = SOUTH_POLE) through `ToPixel`;
each crossing flag records whether the probe landed inside the image, and on
success the corresponding dec extremum is overridden with the probe point. -/
def poleAdjust (wcs : WcsProjection) (b : BoundingBox) : BoundingBox :=
  let n := wcs.toPixel 0 northPole
  let b1 := { b with
    crosses_north_pole := n.1
    dec_max := if n.1 then ⟨0, northPole, n.2.1, n.2.2⟩ else b.dec_max }
  let s := wcs.toPixel 0 southPole
  { b1 with
    crosses_south_pole := s.1
    dec_min := if s.1 then ⟨0, southPole, s.2.1, s.2.2⟩ else b1.dec_min }

/-- The wraparound part of `BoundingBox::FindBoundingBox`: reset the flags,
run the perimeter walk once, and if the resulting ra range indicates a
0-360 wraparound, flag the box as wrapped and rerun the walk with monotonic
ra adjustment. -/
def findBoundingBoxPre (wcs : WcsProjection) (width height : ℕ) :
    BoundingBox :=
  let b1 := findBoundingBoxForKnownWrapped wcs width height zeroBox
  if imageWrapsAround b1.ra_min.ra b1.ra_max.ra then
    findBoundingBoxForKnownWrapped wcs width height
      { b1 with is_wrapped := true }
  else b1

/-- `BoundingBox::FindBoundingBox` from `src/trunk/boundingbox.cc`: the
perimeter walk (with a wraparound re-run) followed by pole probing. -/
def findBoundingBox (wcs : WcsProjection) (width height : ℕ) : BoundingBox :=
  poleAdjust wcs (findBoundingBoxPre wcs width height)

/-- `BoundingBox::GetMonotonicRaBounds` from
`src/trunk/src/google/boundingbox.h`: the max ra is made monotonic when the
box wraps and the min ra is restored into the 0-360 range. -/
def getMonotonicRaBounds (b : BoundingBox) : ℚ × ℚ :=
  (restoreWrapAround b.ra_min.ra,
   if b.is_wrapped then makeRaMonotonic b.ra_max.ra else b.ra_max.ra)

/-- An RGBA color, 8-bit channels modelled as naturals. -/
structure Color where
  r : ℕ
  g : ℕ
  b : ℕ
  a : ℕ
deriving DecidableEq, Repr

/-- The all-zero (fully transparent) color. -/
def transparentColor : Color := ⟨0, 0, 0, 0⟩

/-- A pixel buffer: dimensions plus a total pixel-read function (reads are
only ever performed at coordinates the source code has bounds-checked). -/
structure SkyImage where
  width : ℕ
  height : ℕ
  pix : ℤ → ℤ → Color

/-- C++ `static_cast<int>` on a non-NaN floating value: truncation toward
zero. -/
def cTruncQ (q : ℚ) : ℤ :=
  if q < 0 then ⌈q⌉ else ⌊q⌋

/-- The `Round` helper of `src/trunk/src/google/skyprojection.cc`:
`static_cast<int>(value + 0.5)`. -/
def cppRound (q : ℚ) : ℤ :=
  cTruncQ (q + 1/2)

/-- Functional write of one pixel in an output store. -/
def updStore (st : ℕ × ℕ → Color) (k : ℕ × ℕ) (c : Color) : ℕ × ℕ → Color :=
  fun q => if q = k then c else st q

/-- Whether the input image has its row 0 at the top (`UPPER_LEFT`) or at
the bottom (`LOWER_LEFT`), from `src/trunk/src/google/skyprojection.h`. -/
inductive ImageOrigin where
  | upperLeft
  | lowerLeft
deriving DecidableEq, Repr

/-- The body of the double warp loop of `SkyProjection::WarpImage` for output
pixel (i, j): interpolate (ra, dec) linearly from the monotonic bounds,
invert through `ToPixel`, shift into 0-based coordinates respecting the
input image origin, and either paint the background color (outside) or
point-sample the source with the upper row/column clamp. -/
def warpPixelColor (wcs : WcsProjection) (img : SkyImage) (origin : ImageOrigin)
    (bg : Color) (raMin raMax decMin decMax : ℚ) (pw ph : ℕ) (i j : ℕ) :
    Color :=
  let xscale := (raMax - raMin) / ((pw : ℚ) - 1)
  let yscale := (decMax - decMin) / ((ph : ℚ) - 1)
  let ra := raMax - (i : ℚ) * xscale
  let dec := decMax - (j : ℚ) * yscale
  let res := wcs.toPixel ra dec
  let x := res.2.1 - 1
  let y := if origin = ImageOrigin.lowerLeft then (img.height : ℚ) - res.2.2
           else res.2.2 - 1
  if res.1 = false then bg
  else
    let m0 := cppRound x
    let m := if (img.width : ℤ) ≤ m0 then (img.width : ℤ) - 1 else m0
    let n0 := cppRound y
    let n := if (img.height : ℤ) ≤ n0 then (img.height : ℤ) - 1 else n0
    img.pix m n

/-- The double loop of `SkyProjection::WarpImage` from
`src/trunk/src/google/skyprojection.cc` (outer loop over columns i, inner
loop over rows j), writing into a fresh output store. -/
def warpImage (wcs : WcsProjection) (img : SkyImage) (origin : ImageOrigin)
    (bg : Color) (raMin raMax decMin decMax : ℚ) (pw ph : ℕ) :
    (ℕ × ℕ) → Color :=
  (List.range pw).foldl
    (fun st i =>
      (List.range ph).foldl
        (fun st' j =>
          updStore st' (i, j)
            (warpPixelColor wcs img origin bg raMin raMax decMin decMax
              pw ph i j))
        st)
    (fun _ => transparentColor)

/-- The `Pad` helper of `src/regionator.cc`: the amount of padding needed to
make `size` a multiple of `block_size`. -/
def pad (size block_size : ℕ) : ℕ :=
  (block_size - size % block_size) % block_size

/-- `Regionator::SetMaxTileSideLength` from `src/regionator.cc`: choose x/y
tile side lengths at most `side_length` preserving the image aspect ratio. -/
def setMaxTileSideLength (width height side_length : ℕ) : ℕ × ℕ :=
  let aspect_ratio : ℚ := (width : ℚ) / (height : ℚ)
  if width > height then
    (side_length, (cTruncQ ((side_length : ℚ) / aspect_ratio + 1/2)).toNat)
  else
    ((cTruncQ ((side_length : ℚ) * aspect_ratio + 1/2)).toNat, side_length)

/-- The per-column source x coordinate of the tile sampler in
`Regionator::SplitTileRecursively`:
`Min(static_cast<int>(x1 + i * dx + 0.5), x2)` with
`dx = (x2 - x1) / (tile_size - 1)`. -/
def sampleCoord (c1 c2 : ℕ) (ts : ℕ) (i : ℕ) : ℤ :=
  let d : ℚ := ((c2 : ℚ) - (c1 : ℚ)) / ((ts : ℚ) - 1)
  min (cTruncQ ((c1 : ℚ) + (i : ℚ) * d + 1/2)) (c2 : ℤ)

/-- The tile-sampling loop of `Regionator::SplitTileRecursively`: point-sample
the sub-rectangle (x1, y1)-(x2, y2) onto a tile of tsx x tsy pixels; a
sample beyond the true image bounds paints transparency and clears
`is_opaque`, an in-bounds sample copies the pixel and clears
`is_transparent` when its alpha is nonzero and `is_opaque` when its alpha
is not 255.  Returns (tile store, is_transparent, is_opaque). -/
def splitSampleFold (img : SkyImage) (x1 y1 x2 y2 tsx tsy : ℕ) :
    ((ℕ × ℕ) → Color) × Bool × Bool :=
  (List.range tsx).foldl
    (fun s i =>
      let x := sampleCoord x1 x2 tsx i
      (List.range tsy).foldl
        (fun s' j =>
          let y := sampleCoord y1 y2 tsy j
          if (img.width : ℤ) ≤ x ∨ (img.height : ℤ) ≤ y then
            (updStore s'.1 (i, j) transparentColor, s'.2.1, false)
          else
            let px := img.pix x y
            (updStore s'.1 (i, j) px,
             if px.a ≠ 0 then false else s'.2.1,
             if px.a ≠ 255 then false else s'.2.2))
        s)
    ((fun _ => transparentColor), true, true)

/-- One emitted tile of the recursive split: recursion level, pixel
rectangle (x1, y1, x2, y2) in the padded image, the sampled tile image, and
the two opacity flags. -/
structure TileRec where
  level : ℕ
  x1 : ℕ
  y1 : ℕ
  x2 : ℕ
  y2 : ℕ
  tile : (ℕ × ℕ) → Color
  isTransparent : Bool
  isOpaque : Bool

/-- `Regionator::SplitTileRecursively` from `src/regionator.cc`, with the
emitted tiles collected in depth-first order: sample the tile, and unless
the rectangle spans at most one tile in either axis or the tile is fully
transparent, split at the integer midpoints into four overlapping quadrants
and recurse.  The positivity arguments mirror the
`assert(x_tile_size_ > 0)` / `assert(y_tile_size_ > 0)` preconditions. -/
def splitTile (img : SkyImage) (tsx tsy : ℕ) (htx : 0 < tsx) (hty : 0 < tsy)
    (level x1 y1 x2 y2 : ℕ) : List TileRec :=
  let s := splitSampleFold img x1 y1 x2 y2 tsx tsy
  if x2 - x1 ≤ tsx ∨ y2 - y1 ≤ tsy ∨ s.2.1 = true then
    [⟨level, x1, y1, x2, y2, s.1, s.2.1, s.2.2⟩]
  else
    let xmid := (x1 + x2) / 2
    let ymid := (y1 + y2) / 2
    ⟨level, x1, y1, x2, y2, s.1, s.2.1, s.2.2⟩ ::
      (splitTile img tsx tsy htx hty (level + 1) x1 y1 xmid ymid ++
       (splitTile img tsx tsy htx hty (level + 1) xmid y1 x2 ymid ++
        (splitTile img tsx tsy htx hty (level + 1) x1 ymid xmid y2 ++
         splitTile img tsx tsy htx hty (level + 1) xmid ymid x2 y2)))
termination_by (x2 - x1) + (y2 - y1)
decreasing_by
  all_goals omega

/-- `Regionator::Regionate` from `src/regionator.cc`, tiling part: pad the
image dimensions to multiples of the tile sizes and split recursively from
level 0 over the full padded rectangle. -/
def regionateTiles (img : SkyImage) (tsx tsy : ℕ) (htx : 0 < tsx)
    (hty : 0 < tsy) : List TileRec :=
  let width_padded := img.width + pad img.width tsx
  let height_padded := img.height + pad img.height tsy
  splitTile img tsx tsy htx hty 0 0 0 (width_padded - 1) (height_padded - 1)

/-- `Regionator::MakeFilenamePrefix` from `src/regionator.cc`:
`StringPrintf("%s_%d_%d_%d_%d", filename_prefix_, x1, y1, x2, y2)`. -/
def makeFilenameBase (fp : String) (x1 y1 x2 y2 : ℕ) : String :=
  fp ++ "_" ++ toString x1 ++ "_" ++ toString y1 ++ "_" ++ toString x2 ++
    "_" ++ toString y2

/-- The image and metadata file paths `Regionator::SplitTileRecursively`
opens for a list of tiles: for each tile, `output_directory + "/" + *.png`
and `output_directory + "/" + *.kml`. -/
def tileOutputPaths (output_directory fp : String) (tiles : List TileRec) :
    List String :=
  tiles.flatMap fun t =>
    [output_directory ++ "/" ++ (makeFilenameBase fp t.x1 t.y1 t.x2 t.y2 ++ ".png"),
     output_directory ++ "/" ++ (makeFilenameBase fp t.x1 t.y1 t.x2 t.y2 ++ ".kml")]

/-- All file paths `Regionator::Regionate` opens for writing: the per-tile
image and metadata paths of the recursive split, followed by the root
metadata file, which is opened as `fopen(root_kml_.c_str(), "w")` — the bare
`root_kml_` name, above the subtile directory (the computed
`output_directory_ + "/" + root_kml_` string is unused for the open). -/
def regionateWrittenPaths (output_directory fp root_kml : String)
    (tiles : List TileRec) : List String :=
  tileOutputPaths output_directory fp tiles ++ [root_kml]

/-- A path lies under a directory when it is the directory, a slash, and a
remainder. -/
def underDir (dir p : String) : Prop :=
  ∃ rest : String, p = dir ++ "/" ++ rest

/-- `Point` restricted to the fields `SkyProjection::DetermineProjectedSize`
reads, over ℝ since the source uses `sqrt` and `acos`. -/
structure PointR where
  ra : ℝ
  dec : ℝ
  x : ℝ
  y : ℝ

/-- The bounding-box corner points `SkyProjection::DetermineProjectedSize`
consumes. -/
structure BoundingBoxR where
  ra_min : PointR
  ra_max : PointR
  dec_min : PointR
  dec_max : PointR

/-- `Point::DistanceXY` from `src/trunk/src/google/boundingbox.h`. -/
noncomputable def distanceXY (p q : PointR) : ℝ :=
  Real.sqrt ((q.x - p.x) ^ 2 + (q.y - p.y) ^ 2)

/-- `Point::DistanceRaDec` from `src/trunk/src/google/boundingbox.h`. -/
noncomputable def distanceRaDec (p q : PointR) : ℝ :=
  Real.sqrt ((q.ra - p.ra) ^ 2 + (q.dec - p.dec) ^ 2)

/-- C++ `static_cast<int>` over ℝ: truncation toward zero. -/
noncomputable def cTruncR (v : ℝ) : ℤ :=
  if v < 0 then ⌈v⌉ else ⌊v⌋

/-- The `Round` helper of `src/trunk/src/google/skyprojection.cc` over ℝ. -/
noncomputable def roundR (v : ℝ) : ℤ :=
  cTruncR (v + 1/2)

/-- `TINY_THETA_VALUE` from `src/trunk/src/google/skyprojection.cc`. -/
noncomputable def tinyThetaValue : ℝ := 1/10

/-- `TINY_FLOAT_VALUE` from `src/trunk/src/google/skyprojection.cc`. -/
noncomputable def tinyFloatValue : ℝ := 1/100000000

/-- The `PI` constant from `src/kml.cc` (the value the conversion to degrees
in `DetermineProjectedSize` divides by). -/
noncomputable def piConst : ℝ := 3.1415926535897931

/-- `SkyProjection::DetermineProjectedSize` from
`src/trunk/src/google/skyprojection.cc`: side lengths along east and north
from pixel distances of the box corners, rotation angle from `acos` of a
guarded ra-difference ratio, special cases near 0, 90, 180, 270 degrees,
and the rotated side combination otherwise.  `iw`/`ih` are the source image
dimensions read in the special-cased branches. -/
noncomputable def determineProjectedSize (b : BoundingBoxR) (iw ih : ℤ) :
    ℤ × ℤ :=
  let east_side_len := roundR (distanceXY b.ra_max b.dec_min)
  let north_side_len := roundR (distanceXY b.ra_min b.dec_min)
  let cos_theta := (b.ra_max.ra - b.dec_min.ra) /
    (distanceRaDec b.ra_max b.dec_min + tinyFloatValue)
  let theta := Real.arccos cos_theta
  let theta_degrees := theta * (180 / piConst)
  if |theta_degrees - 90| < tinyThetaValue ∨
     |theta_degrees - 270| < tinyThetaValue then
    (iw, ih)
  else if |theta_degrees| < tinyThetaValue ∨
          |theta_degrees - 180| < tinyThetaValue then
    (ih, iw)
  else
    (roundR (Real.cos theta * (east_side_len : ℝ) +
             Real.sin theta * (north_side_len : ℝ)),
     roundR (Real.sin theta * (east_side_len : ℝ) +
             Real.cos theta * (north_side_len : ℝ)))

/-- A non-degenerate bounding box: the four extremum points are pairwise
distinct and the ra and dec ranges have positive extent. -/
def NondegenerateBox (b : BoundingBoxR) : Prop :=
  b.ra_min.ra < b.ra_max.ra ∧ b.dec_min.dec < b.dec_max.dec ∧
  b.ra_min ≠ b.ra_max ∧ b.ra_min ≠ b.dec_min ∧ b.ra_min ≠ b.dec_max ∧
  b.ra_max ≠ b.dec_min ∧ b.ra_max ≠ b.dec_max ∧ b.dec_min ≠ b.dec_max

/-- The (level, rectangle) shape of an emitted tile list. -/
def tileShape (ts : List TileRec) : List (ℕ × ℕ × ℕ × ℕ × ℕ) :=
  ts.map fun t => (t.level, t.x1, t.y1, t.x2, t.y2)

/-- A projection service whose perimeter samples all sit at the exact north
celestial pole (dec = 90, a legal declination) while the slightly-lower
north-pole probe point still projects inside the image.  Used to exercise
the pole-probing override. -/
def poleRimWcs : WcsProjection :=
  ⟨fun _ _ => (10, 90), fun _ dec => (decide (0 < dec), 1, 1)⟩

/-- A projection service with constant benign samples and all `ToPixel`
probes outside the image. -/
def flatWcs : WcsProjection :=
  ⟨fun _ _ => (10, 20), fun _ _ => (false, 0, 0)⟩

/-- A fully opaque image of the given size (constant RGBA with alpha 255). -/
def opaqueImage (w h : ℕ) : SkyImage :=
  ⟨w, h, fun _ _ => ⟨7, 7, 7, 255⟩⟩

/-- A fully transparent image of the given size (alpha 0 everywhere). -/
def clearImage (w h : ℕ) : SkyImage :=
  ⟨w, h, fun _ _ => transparentColor⟩

/-- A non-degenerate bounding box whose `ra_max`, `ra_min` and `dec_min`
corners are separated by well under one pixel, so that both rounded side
lengths collapse to 0 while the rotation angle stays far from the four
special cases. -/
def cexBoxR : BoundingBoxR :=
  ⟨⟨5, 1, 0, 0.3⟩, ⟨10.3, 0.4, 0, 0⟩, ⟨10, 0, 0.3, 0⟩, ⟨7, 5, 9, 9⟩⟩

/-- A bounding box with both rounded side lengths equal to 5 (3-4-5 pixel
triangles), used to instantiate the positivity theorem. -/
def witBoxR : BoundingBoxR :=
  ⟨⟨0.5, 2, 3, 7⟩, ⟨1, 0, 4, 0⟩, ⟨0, 0, 0, 3⟩, ⟨2, 3, 1, 1⟩⟩


/-- The sentinel min point `(LARGE_BAD_VALUE, LARGE_BAD_VALUE, 0, 0)`. -/
def sentMinPoint : Point := ⟨largeBadValue, largeBadValue, 0, 0⟩

/-- The sentinel max point `(SMALL_BAD_VALUE, SMALL_BAD_VALUE, 0, 0)`. -/
def sentMaxPoint : Point := ⟨smallBadValue, smallBadValue, 0, 0⟩

/-- The points the perimeter walk contributes, in walk order. -/
def perimeterSamples (wcs : WcsProjection) (wrapped : Bool) (w h : ℕ) :
    List Point :=
  (perimeterPixels w h).map (samplePoint wcs wrapped)

/-- The extremum pair the perimeter walk computes for one comparison value
(`Point.ra` or `Point.dec`), starting from the sentinels. -/
def walkFold (value : Point → ℚ) (wcs : WcsProjection) (wrapped : Bool)
    (w h : ℕ) : Point × Point :=
  (perimeterSamples wcs wrapped w h).foldl (extremaStep value)
    (sentMinPoint, sentMaxPoint)

/-- The color the tile sampler stores at tile pixel (i, j): transparency for
sample coordinates beyond the true image bounds, the sampled source pixel
otherwise. -/
def tileVal (img : SkyImage) (x1 y1 x2 y2 tsx tsy : ℕ) (i j : ℕ) : Color :=
  if (img.width : ℤ) ≤ sampleCoord x1 x2 tsx i ∨
      (img.height : ℤ) ≤ sampleCoord y1 y2 tsy j then
    transparentColor
  else
    img.pix (sampleCoord x1 x2 tsx i) (sampleCoord y1 y2 tsy j)

/-- Whether tile sample (i, j) keeps the `is_transparent` flag alive: either
the sample is out of the true image bounds, or its alpha is zero. -/
def tileSampleOk (img : SkyImage) (x1 y1 x2 y2 tsx tsy : ℕ) (i j : ℕ) :
    Bool :=
  if (img.width : ℤ) ≤ sampleCoord x1 x2 tsx i ∨
      (img.height : ℤ) ≤ sampleCoord y1 y2 tsy j then
    true
  else
    decide ((img.pix (sampleCoord x1 x2 tsx i)
      (sampleCoord y1 y2 tsy j)).a = 0)

theorem restoreDown_le_360 (q : ℚ) : restoreDown q ≤ threeSixty := by
  induction q using restoreDown.induct with
  | case1 q hq ih => rw [restoreDown, if_pos hq]; exact ih
  | case2 q hq => rw [restoreDown, if_neg hq]; linarith [not_lt.mp hq]

theorem restoreDown_le_self {q : ℚ} (h : 0 ≤ q) : restoreDown q ≤ q := by
  induction q using restoreDown.induct with
  | case1 q hq ih =>
    rw [restoreDown, if_pos hq]
    have hq' : threeSixty < q := hq
    have hh : restoreDown (q - threeSixty) ≤ q - threeSixty := by
      apply ih
      simp only [threeSixty] at hq' ⊢
      linarith
    simp only [threeSixty] at *
    linarith
  | case2 q hq => rw [restoreDown, if_neg hq]

theorem restoreDown_nonneg {q : ℚ} (h : 0 ≤ q) : 0 ≤ restoreDown q := by
  induction q using restoreDown.induct with
  | case1 q hq ih =>
    rw [restoreDown, if_pos hq]
    have hq' : threeSixty < q := hq
    apply ih
    simp only [threeSixty] at hq' ⊢
    linarith
  | case2 q hq => rw [restoreDown, if_neg hq]; exact h

theorem restoreDown_eq_self {q : ℚ} (h : q ≤ threeSixty) : restoreDown q = q := by
  rw [restoreDown, if_neg (by simpa using h)]

theorem restoreUp_eq_self {q : ℚ} (h : 0 ≤ q) : restoreUp q = q := by
  rw [restoreUp, if_neg (by simpa using h)]

theorem restoreUp_bounds {q : ℚ} (h : q ≤ threeSixty) :
    0 ≤ restoreUp q ∧ restoreUp q ≤ threeSixty := by
  induction q using restoreUp.induct with
  | case1 q hq ih =>
    rw [restoreUp, if_pos hq]
    apply ih
    simp only [threeSixty] at *
    linarith
  | case2 q hq => rw [restoreUp, if_neg hq]; exact ⟨not_lt.mp hq, h⟩

theorem restoreWrapAround_bounds (q : ℚ) :
    0 ≤ restoreWrapAround q ∧ restoreWrapAround q ≤ threeSixty := by
  unfold restoreWrapAround
  exact restoreUp_bounds (restoreDown_le_360 q)

theorem restoreWrapAround_le_self {q : ℚ} (h : 0 ≤ q) :
    restoreWrapAround q ≤ q := by
  unfold restoreWrapAround
  rw [restoreUp_eq_self (restoreDown_nonneg h)]
  exact restoreDown_le_self h

theorem restoreWrapAround_eq_self {q : ℚ} (h0 : 0 ≤ q) (h1 : q ≤ threeSixty) :
    restoreWrapAround q = q := by
  unfold restoreWrapAround
  rw [restoreDown_eq_self h1, restoreUp_eq_self h0]

/-- Claim C4, counterexample: `RestoreWrapAround` applied to 360 returns 360,
which is not in the half-open interval [0, 360); the first `while` loop
tests `> 360` strictly, so the value 360 is left unchanged. -/
theorem c4_restore_counterexample :
    restoreWrapAround 360 = 360 ∧ ¬ restoreWrapAround 360 < 360 := by
  have h : restoreWrapAround 360 = 360 :=
    restoreWrapAround_eq_self (by norm_num) (by norm_num [threeSixty])
  exact ⟨h, by rw [h]; norm_num⟩

/-- Claim C4, amended: for every rational input, `RestoreWrapAround` returns
a value in the closed interval [0, 360] (the endpoint 360 is reachable, e.g.
from input 360), and it is idempotent. -/
theorem c4_restore_range_idempotent (q : ℚ) :
    0 ≤ restoreWrapAround q ∧ restoreWrapAround q ≤ 360 ∧
      restoreWrapAround (restoreWrapAround q) = restoreWrapAround q := by
  obtain ⟨h0, h1⟩ := restoreWrapAround_bounds q
  refine ⟨h0, by simpa [threeSixty] using h1, ?_⟩
  exact restoreWrapAround_eq_self h0 h1

/-- Claim C6, counterexample: in the sentinel-initialized state, processing
the first perimeter sample (ra 10, dec 20 at pixel (1, 1)) replaces only
`ra_max` and `dec_max`; because the min updates sit in `else if` branches,
`ra_min` and `dec_min` keep their sentinel values instead of the sample's. -/
theorem c6_first_sample_counterexample :
    (updateExtrema flatWcs (initExtrema zeroBox) 1 1).ra_max =
        samplePoint flatWcs false (1, 1) ∧
      (updateExtrema flatWcs (initExtrema zeroBox) 1 1).ra_min.ra = 999 ∧
      (updateExtrema flatWcs (initExtrema zeroBox) 1 1).dec_min.dec = 999 ∧
      ¬ (updateExtrema flatWcs (initExtrema zeroBox) 1 1).ra_min =
          samplePoint flatWcs false (1, 1) ∧
      ¬ (updateExtrema flatWcs (initExtrema zeroBox) 1 1).dec_min =
          samplePoint flatWcs false (1, 1) := by
  decide

/-- Claim C6, amended: all four extrema are initialized to sentinel values
(±999) that are invalid as ra/dec, and processing the first valid perimeter
sample replaces `ra_max` and `dec_max` with that sample; `ra_min` and
`dec_min`, whose updates are `else if` chained behind the max comparisons,
keep their sentinels after the first sample. -/
theorem c6_sentinel_init_first_sample (wcs : WcsProjection) (b : BoundingBox)
    (x y : ℚ)
    (hra : -999 < (samplePoint wcs b.is_wrapped (x, y)).ra)
    (hdec : -999 < (samplePoint wcs b.is_wrapped (x, y)).dec) :
    (initExtrema b).ra_min = ⟨999, 999, 0, 0⟩ ∧
      (initExtrema b).ra_max = ⟨-999, -999, 0, 0⟩ ∧
      (initExtrema b).dec_min = ⟨999, 999, 0, 0⟩ ∧
      (initExtrema b).dec_max = ⟨-999, -999, 0, 0⟩ ∧
      (updateExtrema wcs (initExtrema b) x y).ra_max =
        samplePoint wcs b.is_wrapped (x, y) ∧
      (updateExtrema wcs (initExtrema b) x y).dec_max =
        samplePoint wcs b.is_wrapped (x, y) ∧
      (updateExtrema wcs (initExtrema b) x y).ra_min = ⟨999, 999, 0, 0⟩ ∧
      (updateExtrema wcs (initExtrema b) x y).dec_min = ⟨999, 999, 0, 0⟩ := by
  have hw : (initExtrema b).is_wrapped = b.is_wrapped := rfl
  refine ⟨rfl, rfl, rfl, rfl, ?_, ?_, ?_, ?_⟩ <;>
    · simp only [updateExtrema, extremaStep, initExtrema, largeBadValue,
        smallBadValue]
      rw [if_pos (by first | exact hra | exact hdec)]

/-- Claim C6, witness: the amended statement instantiated with the constant
service `flatWcs` (sample ra 10, dec 20) on the zero box at pixel (1, 1). -/
theorem c6_sentinel_init_first_sample_witness :
    (updateExtrema flatWcs (initExtrema zeroBox) 1 1).ra_max =
        samplePoint flatWcs zeroBox.is_wrapped (1, 1) ∧
      (updateExtrema flatWcs (initExtrema zeroBox) 1 1).ra_min =
        ⟨999, 999, 0, 0⟩ := by
  obtain ⟨-, -, -, -, h5, -, h7, -⟩ :=
    c6_sentinel_init_first_sample flatWcs zeroBox 1 1 (by decide) (by decide)
  exact ⟨h5, h7⟩

/-- Claim C9: after `FindBoundingBox`, each pole-crossing flag holds exactly
when the probe point (ra 0, dec ±89.9999999) projects inside the image;
when it does, the corresponding dec extremum is overridden with the probe
point, and when the probe reports outside, that extremum — and every other
bounding-box field — is left exactly as the perimeter walk produced it. -/
theorem c9_pole_probe_frame (wcs : WcsProjection) (width height : ℕ) :
    (findBoundingBox wcs width height).crosses_north_pole =
        (wcs.toPixel 0 northPole).1 ∧
      (findBoundingBox wcs width height).crosses_south_pole =
        (wcs.toPixel 0 southPole).1 ∧
      (findBoundingBox wcs width height).dec_max =
        (if (wcs.toPixel 0 northPole).1 then
          ⟨0, northPole, (wcs.toPixel 0 northPole).2.1,
           (wcs.toPixel 0 northPole).2.2⟩
         else (findBoundingBoxPre wcs width height).dec_max) ∧
      (findBoundingBox wcs width height).dec_min =
        (if (wcs.toPixel 0 southPole).1 then
          ⟨0, southPole, (wcs.toPixel 0 southPole).2.1,
           (wcs.toPixel 0 southPole).2.2⟩
         else (findBoundingBoxPre wcs width height).dec_min) ∧
      (findBoundingBox wcs width height).ra_min =
        (findBoundingBoxPre wcs width height).ra_min ∧
      (findBoundingBox wcs width height).ra_max =
        (findBoundingBoxPre wcs width height).ra_max ∧
      (findBoundingBox wcs width height).is_wrapped =
        (findBoundingBoxPre wcs width height).is_wrapped := by
  exact ⟨rfl, rfl, rfl, rfl, rfl, rfl, rfl⟩

theorem extremaStep_max_mono (value : Point → ℚ) (s : Point × Point)
    (pt : Point) : value s.2 ≤ value (extremaStep value s pt).2 := by
  unfold extremaStep
  split
  · next h => exact le_of_lt h
  · split <;> simp

theorem extremaStep_le_max (value : Point → ℚ) (s : Point × Point)
    (pt : Point) : value pt ≤ value (extremaStep value s pt).2 := by
  unfold extremaStep
  split
  · exact le_rfl
  · next h => split <;> exact not_lt.mp h

theorem extremaStep_preserve (value : Point → ℚ) (s : Point × Point)
    (pt : Point) (h : value s.1 ≤ value s.2) :
    value (extremaStep value s pt).1 ≤ value (extremaStep value s pt).2 := by
  unfold extremaStep
  split
  · next h1 => simp; linarith
  · next h1 =>
    split
    · next h2 => simp; linarith [not_lt.mp h1]
    · exact h

theorem extremaStep_min_cases (value : Point → ℚ) (s : Point × Point)
    (pt : Point) :
    (extremaStep value s pt).1 = s.1 ∨ (extremaStep value s pt).1 = pt := by
  unfold extremaStep
  split
  · left; rfl
  · split
    · right; rfl
    · left; rfl

theorem extremaStep_max_cases (value : Point → ℚ) (s : Point × Point)
    (pt : Point) :
    (extremaStep value s pt).2 = s.2 ∨ (extremaStep value s pt).2 = pt := by
  unfold extremaStep
  split
  · right; rfl
  · split
    · left; rfl
    · left; rfl

theorem extremaStep_le_of_not_gt (value : Point → ℚ) (s : Point × Point)
    (pt : Point) (h : value pt ≤ value s.2) :
    value (extremaStep value s pt).1 ≤ value (extremaStep value s pt).2 := by
  unfold extremaStep
  split
  · next h1 => exact absurd h1 (not_lt.mpr h)
  · next h1 =>
    split
    · next h2 => exact h
    · next h2 => exact le_trans (not_lt.mp h2) h

theorem foldl_extremaStep_max_mono (value : Point → ℚ) (P : List Point) :
    ∀ s : Point × Point,
      value s.2 ≤ value (P.foldl (extremaStep value) s).2 := by
  induction P with
  | nil => intro s; simp
  | cons p P ih =>
    intro s
    simp only [List.foldl_cons]
    exact le_trans (extremaStep_max_mono value s p) (ih _)

theorem foldl_extremaStep_le_max (value : Point → ℚ) (P : List Point)
    (p : Point) (hp : p ∈ P) :
    ∀ s : Point × Point, value p ≤ value (P.foldl (extremaStep value) s).2 := by
  induction P with
  | nil => cases hp
  | cons q P ih =>
    intro s
    simp only [List.foldl_cons]
    rcases List.mem_cons.mp hp with h | h
    · subst h
      exact le_trans (extremaStep_le_max value s p)
        (foldl_extremaStep_max_mono value P _)
    · exact ih h _

theorem foldl_extremaStep_preserve (value : Point → ℚ) (P : List Point) :
    ∀ s : Point × Point, value s.1 ≤ value s.2 →
      value (P.foldl (extremaStep value) s).1 ≤
        value (P.foldl (extremaStep value) s).2 := by
  induction P with
  | nil => intro s h; simpa using h
  | cons p P ih =>
    intro s h
    simp only [List.foldl_cons]
    exact ih _ (extremaStep_preserve value s p h)

theorem foldl_extremaStep_min_cases (value : Point → ℚ) (P : List Point) :
    ∀ s : Point × Point,
      (P.foldl (extremaStep value) s).1 = s.1 ∨
        (P.foldl (extremaStep value) s).1 ∈ P := by
  induction P with
  | nil => intro s; left; rfl
  | cons p P ih =>
    intro s
    simp only [List.foldl_cons]
    rcases ih (extremaStep value s p) with h | h
    · rw [h]
      rcases extremaStep_min_cases value s p with h1 | h1
      · left; exact h1
      · right; rw [h1]; exact List.mem_cons_self _ _
    · right; exact List.mem_cons_of_mem _ h

theorem foldl_extremaStep_max_cases (value : Point → ℚ) (P : List Point) :
    ∀ s : Point × Point,
      (P.foldl (extremaStep value) s).2 = s.2 ∨
        (P.foldl (extremaStep value) s).2 ∈ P := by
  induction P with
  | nil => intro s; left; rfl
  | cons p P ih =>
    intro s
    simp only [List.foldl_cons]
    rcases ih (extremaStep value s p) with h | h
    · rw [h]
      rcases extremaStep_max_cases value s p with h1 | h1
      · left; exact h1
      · right; rw [h1]; exact List.mem_cons_self _ _
    · right; exact List.mem_cons_of_mem _ h

theorem foldl_extremaStep_split (value : Point → ℚ) (A B : List Point)
    (q : Point) (s : Point × Point)
    (hq : value q ≤ value (A.foldl (extremaStep value) s).2) :
    value ((A ++ q :: B).foldl (extremaStep value) s).1 ≤
      value ((A ++ q :: B).foldl (extremaStep value) s).2 := by
  rw [List.foldl_append, List.foldl_cons]
  exact foldl_extremaStep_preserve value B _
    (extremaStep_le_of_not_gt value _ q hq)

theorem foldl_updateExtrema_decomp (wcs : WcsProjection) (L : List (ℚ × ℚ)) :
    ∀ b : BoundingBox,
      L.foldl (fun acc p => updateExtrema wcs acc p.1 p.2) b =
        { b with
          ra_min := ((L.map (samplePoint wcs b.is_wrapped)).foldl
            (extremaStep Point.ra) (b.ra_min, b.ra_max)).1
          ra_max := ((L.map (samplePoint wcs b.is_wrapped)).foldl
            (extremaStep Point.ra) (b.ra_min, b.ra_max)).2
          dec_min := ((L.map (samplePoint wcs b.is_wrapped)).foldl
            (extremaStep Point.dec) (b.dec_min, b.dec_max)).1
          dec_max := ((L.map (samplePoint wcs b.is_wrapped)).foldl
            (extremaStep Point.dec) (b.dec_min, b.dec_max)).2 } := by
  induction L with
  | nil => intro b; rfl
  | cons p L ih =>
    intro b
    simp only [List.foldl_cons, List.map_cons]
    rw [ih (updateExtrema wcs b p.1 p.2)]
    rfl

theorem perimeter_split (w h : ℕ) (hw : 1 ≤ w) (hh : 1 ≤ h) :
    ∃ A B : List (ℚ × ℚ),
      perimeterPixels w h = A ++ ((1 : ℚ), (1 : ℚ)) :: B ∧
        ((1 : ℚ), (1 : ℚ)) ∈ A := by
  have h1 : ((1 : ℚ), (1 : ℚ)) ∈
      (List.range w).map (fun i : ℕ => (((i : ℚ) + 1), (1 : ℚ))) := by
    simp only [List.mem_map, List.mem_range]
    exact ⟨0, by omega, by norm_num⟩
  have h3 : ((1 : ℚ), (1 : ℚ)) ∈
      (List.range h).map (fun i : ℕ => ((1 : ℚ), ((i : ℚ) + 1))) := by
    simp only [List.mem_map, List.mem_range]
    exact ⟨0, by omega, by norm_num⟩
  obtain ⟨C, D, hCD⟩ := List.append_of_mem h3
  refine ⟨((List.range w).map fun i : ℕ => (((i : ℚ) + 1), (1 : ℚ))) ++
      (((List.range w).map fun i : ℕ => (((i : ℚ) + 1), (h : ℚ))) ++ C),
    D ++ ((List.range h).map fun i : ℕ => (((w : ℚ)), ((i : ℚ) + 1))), ?_, ?_⟩
  · unfold perimeterPixels
    rw [hCD]
    simp [List.append_assoc]
  · exact List.mem_append.mpr (Or.inl h1)

theorem walk_eq (wcs : WcsProjection) (w h : ℕ) (b : BoundingBox) :
    findBoundingBoxForKnownWrapped wcs w h b =
      { b with
        ra_min := (walkFold Point.ra wcs b.is_wrapped w h).1
        ra_max := (walkFold Point.ra wcs b.is_wrapped w h).2
        dec_min := (walkFold Point.dec wcs b.is_wrapped w h).1
        dec_max := (walkFold Point.dec wcs b.is_wrapped w h).2 } := by
  unfold findBoundingBoxForKnownWrapped
  rw [foldl_updateExtrema_decomp]
  rfl

theorem walkFold_min_le_max (value : Point → ℚ) (wcs : WcsProjection)
    (wrapped : Bool) (w h : ℕ) (hw : 1 ≤ w) (hh : 1 ≤ h) :
    value (walkFold value wcs wrapped w h).1 ≤
      value (walkFold value wcs wrapped w h).2 := by
  obtain ⟨A, B, hsplit, hmem⟩ := perimeter_split w h hw hh
  unfold walkFold perimeterSamples
  rw [hsplit, List.map_append, List.map_cons]
  apply foldl_extremaStep_split
  exact foldl_extremaStep_le_max value _ _
    (List.mem_map.mpr ⟨_, hmem, rfl⟩) _

theorem walkFold_min_mem (value : Point → ℚ) (wcs : WcsProjection)
    (wrapped : Bool) (w h : ℕ) :
    (walkFold value wcs wrapped w h).1 = sentMinPoint ∨
      (walkFold value wcs wrapped w h).1 ∈ perimeterSamples wcs wrapped w h :=
  foldl_extremaStep_min_cases value _ _

theorem walkFold_max_mem (value : Point → ℚ) (wcs : WcsProjection)
    (wrapped : Bool) (w h : ℕ) :
    (walkFold value wcs wrapped w h).2 = sentMaxPoint ∨
      (walkFold value wcs wrapped w h).2 ∈ perimeterSamples wcs wrapped w h :=
  foldl_extremaStep_max_cases value _ _

theorem walkFold_sample_le_max (value : Point → ℚ) (wcs : WcsProjection)
    (wrapped : Bool) (w h : ℕ) (p : Point)
    (hp : p ∈ perimeterSamples wcs wrapped w h) :
    value p ≤ value (walkFold value wcs wrapped w h).2 :=
  foldl_extremaStep_le_max value _ _ hp _

theorem perimeterSamples_nonempty (wcs : WcsProjection) (wrapped : Bool)
    (w h : ℕ) (hw : 1 ≤ w) :
    samplePoint wcs wrapped (((0 : ℚ) + 1), (1 : ℚ)) ∈
      perimeterSamples wcs wrapped w h := by
  unfold perimeterSamples perimeterPixels
  refine List.mem_map.mpr ⟨(((0 : ℚ) + 1), (1 : ℚ)), ?_, rfl⟩
  apply List.mem_append.mpr
  left
  apply List.mem_append.mpr
  left
  apply List.mem_append.mpr
  left
  simp only [List.mem_map, List.mem_range]
  exact ⟨0, by omega, rfl⟩

theorem makeRaMonotonic_eq_self {q : ℚ} (h : maxDeltaRa ≤ q) :
    makeRaMonotonic q = q := by
  unfold makeRaMonotonic
  rw [if_neg (not_lt.mpr h)]

theorem makeRaMonotonic_lower {q : ℚ} (h : 0 ≤ q) :
    maxDeltaRa ≤ makeRaMonotonic q := by
  unfold makeRaMonotonic
  split
  · simp only [maxDeltaRa, threeSixty] at *
    linarith
  · next hx => exact not_lt.mp hx

theorem northPole_eq_div : northPole = (899999999 : ℚ) / 10000000 := by
  unfold northPole
  rw [Rat.mkRat_eq_div]
  norm_num

theorem southPole_eq_div : southPole = -((899999999 : ℚ) / 10000000) := by
  unfold southPole
  rw [Rat.mkRat_eq_div]
  norm_num

theorem monotonic_ra_ordered (wcs : WcsProjection) (w h : ℕ) (wr : Bool)
    (hw : 1 ≤ w) (hh : 1 ≤ h)
    (hlo : ∀ q ∈ perimeterSamples wcs wr w h, 0 ≤ q.ra)
    (hmono : wr = true →
      ∀ q ∈ perimeterSamples wcs wr w h, maxDeltaRa ≤ q.ra) :
    restoreWrapAround (Point.ra (walkFold Point.ra wcs wr w h).1) ≤
      (if wr then makeRaMonotonic (Point.ra (walkFold Point.ra wcs wr w h).2)
       else Point.ra (walkFold Point.ra wcs wr w h).2) := by
  have hminmax := walkFold_min_le_max Point.ra wcs wr w h hw hh
  have hmin_nonneg : 0 ≤ Point.ra (walkFold Point.ra wcs wr w h).1 := by
    rcases walkFold_min_mem Point.ra wcs wr w h with hc | hc
    · rw [hc]; norm_num [sentMinPoint, largeBadValue]
    · exact hlo _ hc
  have hrest : restoreWrapAround (Point.ra (walkFold Point.ra wcs wr w h).1) ≤
      Point.ra (walkFold Point.ra wcs wr w h).1 :=
    restoreWrapAround_le_self hmin_nonneg
  cases wr with
  | false =>
    simp only [Bool.false_eq_true, if_false]
    exact le_trans hrest hminmax
  | true =>
    simp only [if_true]
    have hmax300 : maxDeltaRa ≤ Point.ra (walkFold Point.ra wcs true w h).2 := by
      have hs := perimeterSamples_nonempty wcs true w h hw
      exact le_trans (hmono rfl _ hs)
        (walkFold_sample_le_max Point.ra wcs true w h _ hs)
    rw [makeRaMonotonic_eq_self hmax300]
    exact le_trans hrest hminmax

theorem dec_pair_ordered (wcs : WcsProjection) (w h : ℕ) (wr : Bool)
    (hw : 1 ≤ w) (hh : 1 ≤ h)
    (hdec : ∀ q ∈ perimeterSamples wcs wr w h,
      southPole ≤ q.dec ∧ q.dec ≤ northPole) :
    Point.dec (walkFold Point.dec wcs wr w h).1 ≤
        Point.dec (walkFold Point.dec wcs wr w h).2 ∧
      Point.dec (walkFold Point.dec wcs wr w h).1 ≤ northPole ∧
      southPole ≤ Point.dec (walkFold Point.dec wcs wr w h).2 := by
  have hminmax := walkFold_min_le_max Point.dec wcs wr w h hw hh
  refine ⟨hminmax, ?_, ?_⟩
  · rcases walkFold_min_mem Point.dec wcs wr w h with hc | hc
    · exfalso
      rcases walkFold_max_mem Point.dec wcs wr w h with hc2 | hc2
      · rw [hc, hc2] at hminmax
        norm_num [sentMinPoint, sentMaxPoint, largeBadValue, smallBadValue]
          at hminmax
      · have := (hdec _ hc2).2
        rw [hc] at hminmax
        simp only [sentMinPoint, largeBadValue] at hminmax
        norm_num [northPole_eq_div] at hminmax this
        linarith
    · exact (hdec _ hc).2
  · rcases walkFold_max_mem Point.dec wcs wr w h with hc | hc
    · exfalso
      rcases walkFold_min_mem Point.dec wcs wr w h with hc2 | hc2
      · rw [hc, hc2] at hminmax
        norm_num [sentMinPoint, sentMaxPoint, largeBadValue, smallBadValue]
          at hminmax
      · have := (hdec _ hc2).1
        rw [hc] at hminmax
        simp only [sentMaxPoint, smallBadValue] at hminmax
        norm_num [southPole_eq_div] at hminmax this
        linarith
    · exact (hdec _ hc).1

theorem samples_ra_nonneg (wcs : WcsProjection) (w h : ℕ) (wr : Bool)
    (hvalid : ∀ p ∈ perimeterPixels w h, 0 ≤ (wcs.toRaDec p.1 p.2).1) :
    ∀ q ∈ perimeterSamples wcs wr w h, 0 ≤ q.ra := by
  intro q hq
  obtain ⟨p, hp, rfl⟩ := List.mem_map.mp hq
  cases wr with
  | false => exact hvalid p hp
  | true =>
    have h1 := makeRaMonotonic_lower (hvalid p hp)
    have h2 : (0 : ℚ) ≤ maxDeltaRa := by norm_num [maxDeltaRa]
    exact le_trans h2 h1

theorem samples_ra_mono (wcs : WcsProjection) (w h : ℕ)
    (hvalid : ∀ p ∈ perimeterPixels w h, 0 ≤ (wcs.toRaDec p.1 p.2).1) :
    ∀ q ∈ perimeterSamples wcs true w h, maxDeltaRa ≤ q.ra := by
  intro q hq
  obtain ⟨p, hp, rfl⟩ := List.mem_map.mp hq
  exact makeRaMonotonic_lower (hvalid p hp)

theorem samples_dec_bounds (wcs : WcsProjection) (w h : ℕ) (wr : Bool)
    (hvalid : ∀ p ∈ perimeterPixels w h,
      southPole ≤ (wcs.toRaDec p.1 p.2).2 ∧
        (wcs.toRaDec p.1 p.2).2 ≤ northPole) :
    ∀ q ∈ perimeterSamples wcs wr w h,
      southPole ≤ q.dec ∧ q.dec ≤ northPole := by
  intro q hq
  obtain ⟨p, hp, rfl⟩ := List.mem_map.mp hq
  exact hvalid p hp

theorem pre_fields (wcs : WcsProjection) (w h : ℕ) :
    (findBoundingBoxPre wcs w h).ra_min =
        (walkFold Point.ra wcs (findBoundingBoxPre wcs w h).is_wrapped w h).1 ∧
      (findBoundingBoxPre wcs w h).ra_max =
        (walkFold Point.ra wcs (findBoundingBoxPre wcs w h).is_wrapped w h).2 ∧
      (findBoundingBoxPre wcs w h).dec_min =
        (walkFold Point.dec wcs (findBoundingBoxPre wcs w h).is_wrapped w h).1 ∧
      (findBoundingBoxPre wcs w h).dec_max =
        (walkFold Point.dec wcs (findBoundingBoxPre wcs w h).is_wrapped w h).2 := by
  have hpre : findBoundingBoxPre wcs w h =
      (if imageWrapsAround
          (findBoundingBoxForKnownWrapped wcs w h zeroBox).ra_min.ra
          (findBoundingBoxForKnownWrapped wcs w h zeroBox).ra_max.ra
       then findBoundingBoxForKnownWrapped wcs w h
         { findBoundingBoxForKnownWrapped wcs w h zeroBox with
             is_wrapped := true }
       else findBoundingBoxForKnownWrapped wcs w h zeroBox) := rfl
  rw [hpre]
  split
  · rw [walk_eq]
    exact ⟨rfl, rfl, rfl, rfl⟩
  · rw [walk_eq]
    exact ⟨rfl, rfl, rfl, rfl⟩

/-- Claim C1, amended: for an image with both dimensions above 1 whose
perimeter pixels all project to ra in [0, 360) and dec within the probe
range [-89.9999999, 89.9999999], the box computed by `FindBoundingBox`
satisfies `ra_min <= ra_max` as returned by `GetMonotonicRaBounds`, and
`dec_min.dec <= dec_max.dec`.  (The dec bound must be strengthened from the
legal [-90, 90]: a perimeter declination beyond the probe constant combined
with a successful pole probe can push `dec_max` below `dec_min`.) -/
theorem c1_bounding_box_ordered (wcs : WcsProjection) (w h : ℕ)
    (hw : 1 < w) (hh : 1 < h)
    (hvalid : ∀ p ∈ perimeterPixels w h,
      0 ≤ (wcs.toRaDec p.1 p.2).1 ∧ (wcs.toRaDec p.1 p.2).1 < 360 ∧
        southPole ≤ (wcs.toRaDec p.1 p.2).2 ∧
        (wcs.toRaDec p.1 p.2).2 ≤ northPole) :
    (getMonotonicRaBounds (findBoundingBox wcs w h)).1 ≤
        (getMonotonicRaBounds (findBoundingBox wcs w h)).2 ∧
      (findBoundingBox wcs w h).dec_min.dec ≤
        (findBoundingBox wcs w h).dec_max.dec := by
  have hw1 : 1 ≤ w := le_of_lt hw
  have hh1 : 1 ≤ h := le_of_lt hh
  have hra0 : ∀ p ∈ perimeterPixels w h, 0 ≤ (wcs.toRaDec p.1 p.2).1 :=
    fun p hp => (hvalid p hp).1
  have hdecb : ∀ p ∈ perimeterPixels w h,
      southPole ≤ (wcs.toRaDec p.1 p.2).2 ∧
        (wcs.toRaDec p.1 p.2).2 ≤ northPole :=
    fun p hp => ⟨(hvalid p hp).2.2.1, (hvalid p hp).2.2.2⟩
  obtain ⟨hf1, hf2, hf3, hf4⟩ := pre_fields wcs w h
  constructor
  · have hgm : getMonotonicRaBounds (findBoundingBox wcs w h) =
        getMonotonicRaBounds (findBoundingBoxPre wcs w h) := rfl
    rw [hgm]
    simp only [getMonotonicRaBounds]
    rw [hf1, hf2]
    exact monotonic_ra_ordered wcs w h
      (findBoundingBoxPre wcs w h).is_wrapped hw1 hh1
      (samples_ra_nonneg wcs w h _ hra0)
      (fun hwr' => by rw [hwr']; exact samples_ra_mono wcs w h hra0)
  · obtain ⟨hd1, hd2, hd3⟩ := dec_pair_ordered wcs w h
      (findBoundingBoxPre wcs w h).is_wrapped hw1 hh1
      (samples_dec_bounds wcs w h _ hdecb)
    have hdmax : (findBoundingBox wcs w h).dec_max =
        (if (wcs.toPixel 0 northPole).1 then
          ⟨0, northPole, (wcs.toPixel 0 northPole).2.1,
           (wcs.toPixel 0 northPole).2.2⟩
         else (findBoundingBoxPre wcs w h).dec_max) := rfl
    have hdmin : (findBoundingBox wcs w h).dec_min =
        (if (wcs.toPixel 0 southPole).1 then
          ⟨0, southPole, (wcs.toPixel 0 southPole).2.1,
           (wcs.toPixel 0 southPole).2.2⟩
         else (findBoundingBoxPre wcs w h).dec_min) := rfl
    rw [hdmax, hdmin]
    by_cases hn : (wcs.toPixel 0 northPole).1 = true <;>
      by_cases hs : (wcs.toPixel 0 southPole).1 = true
    · rw [if_pos hn, if_pos hs]
      norm_num [southPole_eq_div, northPole_eq_div]
    · rw [if_pos hn, if_neg hs, hf3]
      exact hd2
    · rw [if_neg hn, if_pos hs, hf4]
      exact hd3
    · rw [if_neg hn, if_neg hs, hf3, hf4]
      exact hd1

set_option maxRecDepth 8000 in
unseal Rat.add Rat.sub Rat.mul in
/-- Claim C1, counterexample: with a projection whose 2x2 perimeter samples
all have the legal declination 90 and whose north-pole probe lands inside
the image, every perimeter pixel projects to valid (ra, dec) in
[0, 360) x [-90, 90], yet after `FindBoundingBox` the pole override leaves
`dec_max.dec = 89.9999999 < 90 = dec_min.dec`. -/
theorem c1_pole_counterexample :
    (∀ p ∈ perimeterPixels 2 2,
      0 ≤ (poleRimWcs.toRaDec p.1 p.2).1 ∧
        (poleRimWcs.toRaDec p.1 p.2).1 < 360 ∧
        -90 ≤ (poleRimWcs.toRaDec p.1 p.2).2 ∧
        (poleRimWcs.toRaDec p.1 p.2).2 ≤ 90) ∧
      ¬ (findBoundingBox poleRimWcs 2 2).dec_min.dec ≤
          (findBoundingBox poleRimWcs 2 2).dec_max.dec := by
  decide

set_option maxRecDepth 8000 in
unseal Rat.add Rat.sub Rat.mul in
/-- Claim C1, witness: the amended theorem applied to the constant service
`flatWcs` (every perimeter sample at ra 10, dec 20) on a 2x2 image. -/
theorem c1_bounding_box_ordered_witness :
    (getMonotonicRaBounds (findBoundingBox flatWcs 2 2)).1 ≤
        (getMonotonicRaBounds (findBoundingBox flatWcs 2 2)).2 ∧
      (findBoundingBox flatWcs 2 2).dec_min.dec ≤
        (findBoundingBox flatWcs 2 2).dec_max.dec :=
  c1_bounding_box_ordered flatWcs 2 2 (by norm_num) (by norm_num) (by decide)

theorem inner_loop_get (f : ℕ × ℕ → Color) (a : ℕ) (ph : ℕ) :
    ∀ (st : (ℕ × ℕ) → Color) (j : ℕ), j < ph →
      ((List.range ph).foldl (fun s' b => updStore s' (a, b) (f (a, b))) st)
          (a, j) = f (a, j) := by
  induction ph with
  | zero => intro st j hj; omega
  | succ n ih =>
    intro st j hj
    rw [List.range_succ, List.foldl_append, List.foldl_cons, List.foldl_nil]
    by_cases hjn : j = n
    · subst hjn
      simp [updStore]
    · have hj' : j < n := by omega
      rw [show updStore ((List.range n).foldl
            (fun s' b => updStore s' (a, b) (f (a, b))) st) (a, n) (f (a, n))
            (a, j) =
          ((List.range n).foldl (fun s' b => updStore s' (a, b) (f (a, b))) st)
            (a, j) by simp [updStore, hjn]]
      exact ih st j hj'

theorem inner_loop_frame (f : ℕ × ℕ → Color) (a : ℕ) (ph : ℕ) :
    ∀ (st : (ℕ × ℕ) → Color) (q : ℕ × ℕ), q.1 ≠ a →
      ((List.range ph).foldl (fun s' b => updStore s' (a, b) (f (a, b))) st) q =
        st q := by
  induction ph with
  | zero => intro st q hq; rfl
  | succ n ih =>
    intro st q hq
    rw [List.range_succ, List.foldl_append, List.foldl_cons, List.foldl_nil]
    have h1 : q ≠ (a, n) := by
      intro hqe
      exact hq (by rw [hqe])
    rw [show updStore ((List.range n).foldl
          (fun s' b => updStore s' (a, b) (f (a, b))) st) (a, n) (f (a, n)) q =
        ((List.range n).foldl (fun s' b => updStore s' (a, b) (f (a, b))) st) q
        by simp [updStore, h1]]
    exact ih st q hq

theorem nested_loop_get (f : ℕ × ℕ → Color) (pw ph : ℕ) :
    ∀ (st : (ℕ × ℕ) → Color) (i j : ℕ), i < pw → j < ph →
      ((List.range pw).foldl
        (fun s a => (List.range ph).foldl
          (fun s' b => updStore s' (a, b) (f (a, b))) s) st) (i, j) =
        f (i, j) := by
  induction pw with
  | zero => intro st i j hi hj; omega
  | succ n ih =>
    intro st i j hi hj
    rw [List.range_succ, List.foldl_append, List.foldl_cons, List.foldl_nil]
    by_cases hin : i = n
    · subst hin
      exact inner_loop_get f i ph _ j hj
    · rw [inner_loop_frame f n ph _ (i, j) hin]
      exact ih st i j (by omega) hj

theorem warpImage_get (wcs : WcsProjection) (img : SkyImage)
    (origin : ImageOrigin) (bg : Color) (raMin raMax decMin decMax : ℚ)
    (pw ph : ℕ) (i j : ℕ) (hi : i < pw) (hj : j < ph) :
    warpImage wcs img origin bg raMin raMax decMin decMax pw ph (i, j) =
      warpPixelColor wcs img origin bg raMin raMax decMin decMax pw ph i j := by
  unfold warpImage
  exact nested_loop_get
    (fun q => warpPixelColor wcs img origin bg raMin raMax decMin decMax
      pw ph q.1 q.2) pw ph _ i j hi hj

/-- Claim C2: for every output pixel (i, j) of `WarpImage`, when `ToPixel`
reports that the linearly interpolated (ra, dec) lies outside the source
image the output pixel is set to the configured background color (no error
path exists: the function is total); otherwise the output pixel equals the
point sample of the source image at the rounded pixel coordinates, clamped
to the last valid row/column, with the row coordinate flipped or shifted
according to whether the source's row 0 is its top or bottom. -/
theorem c2_warp_pixel_behavior (wcs : WcsProjection) (img : SkyImage)
    (origin : ImageOrigin) (bg : Color) (raMin raMax decMin decMax : ℚ)
    (pw ph : ℕ) (i j : ℕ) (hi : i < pw) (hj : j < ph) :
    ((wcs.toPixel (raMax - (i : ℚ) * ((raMax - raMin) / ((pw : ℚ) - 1)))
        (decMax - (j : ℚ) * ((decMax - decMin) / ((ph : ℚ) - 1)))).1 = false →
      warpImage wcs img origin bg raMin raMax decMin decMax pw ph (i, j) =
        bg) ∧
    (∀ inx iny : ℚ,
      wcs.toPixel (raMax - (i : ℚ) * ((raMax - raMin) / ((pw : ℚ) - 1)))
          (decMax - (j : ℚ) * ((decMax - decMin) / ((ph : ℚ) - 1))) =
        (true, inx, iny) →
      warpImage wcs img origin bg raMin raMax decMin decMax pw ph (i, j) =
        img.pix
          (if (img.width : ℤ) ≤ cppRound (inx - 1) then (img.width : ℤ) - 1
           else cppRound (inx - 1))
          (if (img.height : ℤ) ≤ cppRound
              (if origin = ImageOrigin.lowerLeft then (img.height : ℚ) - iny
               else iny - 1) then
            (img.height : ℤ) - 1
           else cppRound
            (if origin = ImageOrigin.lowerLeft then (img.height : ℚ) - iny
             else iny - 1))) := by
  rw [warpImage_get wcs img origin bg raMin raMax decMin decMax pw ph i j
    hi hj]
  constructor
  · intro h
    simp only [warpPixelColor]
    rw [if_pos h]
  · intro inx iny heq
    simp only [warpPixelColor, heq]
    norm_num

/-- Claim C2, witness: applied to the service `flatWcs`, whose `ToPixel`
always reports outside, so output pixel (0, 0) of a 2x2 warp is the
background color. -/
theorem c2_warp_pixel_behavior_witness :
    warpImage flatWcs (opaqueImage 3 3) ImageOrigin.upperLeft
      ⟨1, 2, 3, 4⟩ 0 10 0 10 2 2 (0, 0) = ⟨1, 2, 3, 4⟩ :=
  (c2_warp_pixel_behavior flatWcs (opaqueImage 3 3) ImageOrigin.upperLeft
    ⟨1, 2, 3, 4⟩ 0 10 0 10 2 2 0 0 (by norm_num) (by norm_num)).1 rfl

theorem tile_inner_isT (img : SkyImage) (x1 y1 x2 y2 tsx tsy i : ℕ) :
    ∀ (L : List ℕ) (s : ((ℕ × ℕ) → Color) × Bool × Bool),
      ((L.foldl (fun s' j =>
          let y := sampleCoord y1 y2 tsy j
          if (img.width : ℤ) ≤ sampleCoord x1 x2 tsx i ∨
              (img.height : ℤ) ≤ y then
            (updStore s'.1 (i, j) transparentColor, s'.2.1, false)
          else
            let px := img.pix (sampleCoord x1 x2 tsx i) y
            (updStore s'.1 (i, j) px,
             if px.a ≠ 0 then false else s'.2.1,
             if px.a ≠ 255 then false else s'.2.2)) s).2.1) =
        (s.2.1 && L.all (fun j => tileSampleOk img x1 y1 x2 y2 tsx tsy i j)) := by
  intro L
  induction L with
  | nil => intro s; simp
  | cons j L ih =>
    intro s
    simp only [List.foldl_cons, List.all_cons]
    rw [ih]
    by_cases hb : (img.width : ℤ) ≤ sampleCoord x1 x2 tsx i ∨
        (img.height : ℤ) ≤ sampleCoord y1 y2 tsy j
    · simp only [hb, if_true, if_pos hb, tileSampleOk]
      simp [Bool.and_assoc]
    · simp only [tileSampleOk, if_neg hb]
      by_cases ha : (img.pix (sampleCoord x1 x2 tsx i)
          (sampleCoord y1 y2 tsy j)).a = 0
      · simp [ha, Bool.and_assoc]
      · simp [ha, Bool.and_assoc]

theorem tile_outer_isT (img : SkyImage) (x1 y1 x2 y2 tsx tsy : ℕ) :
    ∀ (M : List ℕ) (s : ((ℕ × ℕ) → Color) × Bool × Bool),
      ((M.foldl (fun s i =>
          let x := sampleCoord x1 x2 tsx i
          (List.range tsy).foldl (fun s' j =>
            let y := sampleCoord y1 y2 tsy j
            if (img.width : ℤ) ≤ x ∨ (img.height : ℤ) ≤ y then
              (updStore s'.1 (i, j) transparentColor, s'.2.1, false)
            else
              let px := img.pix x y
              (updStore s'.1 (i, j) px,
               if px.a ≠ 0 then false else s'.2.1,
               if px.a ≠ 255 then false else s'.2.2)) s) s).2.1) =
        (s.2.1 && M.all (fun i => (List.range tsy).all
          (fun j => tileSampleOk img x1 y1 x2 y2 tsx tsy i j))) := by
  intro M
  induction M with
  | nil => intro s; simp
  | cons i M ih =>
    intro s
    simp only [List.foldl_cons, List.all_cons]
    rw [ih, tile_inner_isT]
    simp [Bool.and_assoc]

theorem splitSampleFold_isT (img : SkyImage) (x1 y1 x2 y2 tsx tsy : ℕ) :
    (splitSampleFold img x1 y1 x2 y2 tsx tsy).2.1 =
      (List.range tsx).all (fun i => (List.range tsy).all
        (fun j => tileSampleOk img x1 y1 x2 y2 tsx tsy i j)) := by
  unfold splitSampleFold
  rw [tile_outer_isT]
  simp

theorem tile_inner_store (img : SkyImage) (x1 y1 x2 y2 tsx tsy i : ℕ) :
    ∀ (L : List ℕ) (s : ((ℕ × ℕ) → Color) × Bool × Bool),
      ((L.foldl (fun s' j =>
          let y := sampleCoord y1 y2 tsy j
          if (img.width : ℤ) ≤ sampleCoord x1 x2 tsx i ∨
              (img.height : ℤ) ≤ y then
            (updStore s'.1 (i, j) transparentColor, s'.2.1, false)
          else
            let px := img.pix (sampleCoord x1 x2 tsx i) y
            (updStore s'.1 (i, j) px,
             if px.a ≠ 0 then false else s'.2.1,
             if px.a ≠ 255 then false else s'.2.2)) s).1) =
        L.foldl (fun st j =>
          updStore st (i, j) (tileVal img x1 y1 x2 y2 tsx tsy i j)) s.1 := by
  intro L
  induction L with
  | nil => intro s; rfl
  | cons j L ih =>
    intro s
    simp only [List.foldl_cons]
    rw [ih]
    by_cases hb : (img.width : ℤ) ≤ sampleCoord x1 x2 tsx i ∨
        (img.height : ℤ) ≤ sampleCoord y1 y2 tsy j
    · simp only [if_pos hb, tileVal]
    · simp only [if_neg hb, tileVal]

theorem tile_outer_store (img : SkyImage) (x1 y1 x2 y2 tsx tsy : ℕ) :
    ∀ (M : List ℕ) (s : ((ℕ × ℕ) → Color) × Bool × Bool),
      ((M.foldl (fun s i =>
          let x := sampleCoord x1 x2 tsx i
          (List.range tsy).foldl (fun s' j =>
            let y := sampleCoord y1 y2 tsy j
            if (img.width : ℤ) ≤ x ∨ (img.height : ℤ) ≤ y then
              (updStore s'.1 (i, j) transparentColor, s'.2.1, false)
            else
              let px := img.pix x y
              (updStore s'.1 (i, j) px,
               if px.a ≠ 0 then false else s'.2.1,
               if px.a ≠ 255 then false else s'.2.2)) s) s).1) =
        M.foldl (fun st i =>
          (List.range tsy).foldl (fun st' j =>
            updStore st' (i, j) (tileVal img x1 y1 x2 y2 tsx tsy i j)) st)
          s.1 := by
  intro M
  induction M with
  | nil => intro s; rfl
  | cons i M ih =>
    intro s
    simp only [List.foldl_cons]
    rw [ih]
    congr 1
    exact tile_inner_store img x1 y1 x2 y2 tsx tsy i (List.range tsy) s

theorem splitSampleFold_get (img : SkyImage) (x1 y1 x2 y2 tsx tsy : ℕ)
    (i j : ℕ) (hi : i < tsx) (hj : j < tsy) :
    (splitSampleFold img x1 y1 x2 y2 tsx tsy).1 (i, j) =
      tileVal img x1 y1 x2 y2 tsx tsy i j := by
  unfold splitSampleFold
  rw [tile_outer_store]
  exact nested_loop_get
    (fun q => tileVal img x1 y1 x2 y2 tsx tsy q.1 q.2) tsx tsy _ i j hi hj

/-- Claim C5: for every pixel rectangle whose sampled tile is fully
transparent — every sampled in-bounds pixel has alpha 0 — the recursive
split emits only the tile for that rectangle and never recurses into
sub-quadrants, regardless of the rectangle's size relative to the tile
size. -/
theorem c5_transparent_tile_no_recursion (img : SkyImage) (tsx tsy : ℕ)
    (htx : 0 < tsx) (hty : 0 < tsy) (level x1 y1 x2 y2 : ℕ)
    (htrans : ∀ i < tsx, ∀ j < tsy,
      ¬((img.width : ℤ) ≤ sampleCoord x1 x2 tsx i ∨
          (img.height : ℤ) ≤ sampleCoord y1 y2 tsy j) →
        (img.pix (sampleCoord x1 x2 tsx i) (sampleCoord y1 y2 tsy j)).a = 0) :
    splitTile img tsx tsy htx hty level x1 y1 x2 y2 =
      [⟨level, x1, y1, x2, y2, (splitSampleFold img x1 y1 x2 y2 tsx tsy).1,
        (splitSampleFold img x1 y1 x2 y2 tsx tsy).2.1,
        (splitSampleFold img x1 y1 x2 y2 tsx tsy).2.2⟩] := by
  have hflag : (splitSampleFold img x1 y1 x2 y2 tsx tsy).2.1 = true := by
    rw [splitSampleFold_isT]
    rw [List.all_eq_true]
    intro i hi
    rw [List.all_eq_true]
    intro j hj
    unfold tileSampleOk
    split
    · rfl
    · next hb =>
      simp only [decide_eq_true_eq]
      exact htrans i (List.mem_range.mp hi) j (List.mem_range.mp hj) hb
  rw [splitTile]
  simp [hflag]

/-- Claim C5, witness: on a fully transparent 4x4 image, splitting the full
rectangle with 2x2 tiles emits exactly the one root tile. -/
theorem c5_transparent_tile_no_recursion_witness :
    splitTile (clearImage 4 4) 2 2 (by norm_num) (by norm_num) 0 0 0 3 3 =
      [⟨0, 0, 0, 3, 3, (splitSampleFold (clearImage 4 4) 0 0 3 3 2 2).1,
        (splitSampleFold (clearImage 4 4) 0 0 3 3 2 2).2.1,
        (splitSampleFold (clearImage 4 4) 0 0 3 3 2 2).2.2⟩] :=
  c5_transparent_tile_no_recursion (clearImage 4 4) 2 2 (by norm_num)
    (by norm_num) 0 0 0 3 3 (fun _ _ _ _ _ => rfl)

theorem pad_spec (size bs : ℕ) (hbs : 0 < bs) :
    bs ∣ (size + pad size bs) ∧ size ≤ size + pad size bs ∧
      (∀ m, size ≤ m → bs ∣ m → size + pad size bs ≤ m) ∧
      (bs ∣ size → pad size bs = 0) := by
  unfold pad
  have hq := Nat.div_add_mod size bs
  have hmod := Nat.mod_lt size hbs
  have hmul : bs * (size / bs + 1) = bs * (size / bs) + bs := by ring
  by_cases hr : size % bs = 0
  · rw [hr, Nat.sub_zero, Nat.mod_self, Nat.add_zero]
    exact ⟨Nat.dvd_of_mod_eq_zero hr, le_rfl,
      fun m hm _ => hm, fun _ => rfl⟩
  · have h1 : bs - size % bs < bs := by omega
    rw [Nat.mod_eq_of_lt h1]
    refine ⟨⟨size / bs + 1, by omega⟩, by omega, ?_, ?_⟩
    · intro m hm hdvd
      obtain ⟨k, rfl⟩ := hdvd
      have hqk : size / bs < k := by
        by_contra hcon
        have hk : k ≤ size / bs := by omega
        have := Nat.mul_le_mul_left bs hk
        omega
      have h2 : bs * (size / bs + 1) ≤ bs * k := Nat.mul_le_mul_left bs hqk
      omega
    · intro hdvd
      obtain ⟨k, rfl⟩ := hdvd
      exact absurd (Nat.mul_mod_right bs k) hr

/-- Claim C8: `Regionate` pads the image width (resp. height) to the
smallest multiple of the x (resp. y) tile size at or above it, with zero
padding when the dimension is already an exact multiple; the recursion is
started on the padded rectangle; and every tile sample whose source
coordinate falls beyond the true image bounds — in particular the whole
padded region — is stored as the fully transparent color. -/
theorem c8_padding_transparent (tsx tsy : ℕ) (htx : 0 < tsx)
    (hty : 0 < tsy) (img : SkyImage) :
    (tsx ∣ (img.width + pad img.width tsx) ∧
      img.width ≤ img.width + pad img.width tsx ∧
      (∀ m, img.width ≤ m → tsx ∣ m → img.width + pad img.width tsx ≤ m) ∧
      (tsx ∣ img.width → pad img.width tsx = 0)) ∧
    (tsy ∣ (img.height + pad img.height tsy) ∧
      img.height ≤ img.height + pad img.height tsy ∧
      (∀ m, img.height ≤ m → tsy ∣ m → img.height + pad img.height tsy ≤ m) ∧
      (tsy ∣ img.height → pad img.height tsy = 0)) ∧
    regionateTiles img tsx tsy htx hty =
      splitTile img tsx tsy htx hty 0 0 0
        (img.width + pad img.width tsx - 1)
        (img.height + pad img.height tsy - 1) ∧
    (∀ x1 y1 x2 y2 i j, i < tsx → j < tsy →
      ((img.width : ℤ) ≤ sampleCoord x1 x2 tsx i ∨
        (img.height : ℤ) ≤ sampleCoord y1 y2 tsy j) →
      (splitSampleFold img x1 y1 x2 y2 tsx tsy).1 (i, j) =
        transparentColor) := by
  refine ⟨pad_spec img.width tsx htx, pad_spec img.height tsy hty, rfl, ?_⟩
  intro x1 y1 x2 y2 i j hi hj hout
  rw [splitSampleFold_get img x1 y1 x2 y2 tsx tsy i j hi hj]
  unfold tileVal
  rw [if_pos hout]

/-- Claim C8, witness: the padding and transparent-sampling statement
applied to a 7x5 opaque image with 3x2 tiles. -/
theorem c8_padding_transparent_witness :
    3 ∣ ((opaqueImage 7 5).width + pad (opaqueImage 7 5).width 3) ∧
      pad (opaqueImage 7 5).width 3 = 2 :=
  ⟨(c8_padding_transparent 3 2 (by norm_num) (by norm_num)
      (opaqueImage 7 5)).1.1, by decide⟩

/-- Claim C10, counterexample: with the default configuration
(output directory "tiles", root KML name "root.kml"), the root metadata
file is among the paths `Regionate` opens for writing, yet its path is the
bare "root.kml" — not under the output directory.  The source computes
`kmlfile = output_directory_ + "/" + root_kml_` but then opens
`root_kml_` itself; the adjacent comment "The root KML lives above the
subtile directory" and the directory-prefixed network link confirm the root
file is meant to sit above the output directory. -/
theorem c10_root_path_counterexample :
    "root.kml" ∈ regionateWrittenPaths "tiles" "tile" "root.kml"
        (regionateTiles (opaqueImage 2 2) 1 1 one_pos one_pos) ∧
      ¬ underDir "tiles" "root.kml" := by
  constructor
  · unfold regionateWrittenPaths
    exact List.mem_append.mpr (Or.inr (List.mem_singleton.mpr rfl))
  · rintro ⟨rest, hrest⟩
    have h2 := congrArg String.data hrest
    rw [String.data_append, String.data_append] at h2
    have h3 : "root.kml".data = ['r', 'o', 'o', 't', '.', 'k', 'm', 'l'] :=
      rfl
    have h4 : "tiles".data = ['t', 'i', 'l', 'e', 's'] := rfl
    rw [h3, h4] at h2
    simp at h2

/-- Claim C10, amended: every per-tile image file and metadata file that
`Regionate` writes is at a path under the configured output directory; the
one root metadata file is instead written at the bare configured root name,
in the directory above (its network link is prefixed with the output
directory to compensate). -/
theorem c10_output_paths (output_directory fp root_kml : String)
    (tiles : List TileRec) :
    (∀ p ∈ tileOutputPaths output_directory fp tiles,
      underDir output_directory p) ∧
      regionateWrittenPaths output_directory fp root_kml tiles =
        tileOutputPaths output_directory fp tiles ++ [root_kml] := by
  constructor
  · intro p hp
    obtain ⟨t, ht, hpt⟩ := List.mem_flatMap.mp hp
    simp only [List.mem_cons, List.mem_singleton, List.not_mem_nil,
      or_false] at hpt
    rcases hpt with rfl | rfl
    · exact ⟨makeFilenameBase fp t.x1 t.y1 t.x2 t.y2 ++ ".png", rfl⟩
    · exact ⟨makeFilenameBase fp t.x1 t.y1 t.x2 t.y2 ++ ".kml", rfl⟩
  · rfl

/-- Claim C10, witness: the amended statement instantiated at the default
configuration with a single concrete tile record. -/
theorem c10_output_paths_witness :
    "tiles" ++ "/" ++ ("tile" ++ "_" ++ toString 0 ++ "_" ++ toString 0 ++
        "_" ++ toString 1 ++ "_" ++ toString 1 ++ ".png") ∈
      tileOutputPaths "tiles" "tile"
        [⟨0, 0, 0, 1, 1, (fun _ => transparentColor), true, false⟩] ∧
    underDir "tiles"
      ("tiles" ++ "/" ++ ("tile" ++ "_" ++ toString 0 ++ "_" ++ toString 0 ++
        "_" ++ toString 1 ++ "_" ++ toString 1 ++ ".png")) := by
  have hmem : "tiles" ++ "/" ++ ("tile" ++ "_" ++ toString 0 ++ "_" ++
      toString 0 ++ "_" ++ toString 1 ++ "_" ++ toString 1 ++ ".png") ∈
      tileOutputPaths "tiles" "tile"
        [⟨0, 0, 0, 1, 1, (fun _ => transparentColor), true, false⟩] := by
    unfold tileOutputPaths makeFilenameBase
    simp
  exact ⟨hmem,
    (c10_output_paths "tiles" "tile" "root.kml"
      [⟨0, 0, 0, 1, 1, (fun _ => transparentColor), true, false⟩]).1 _ hmem⟩

theorem cTruncQ_nat_add_half (n : ℕ) : cTruncQ ((n : ℚ) + 1/2) = n := by
  unfold cTruncQ
  rw [if_neg (not_lt.mpr (by positivity))]
  rw [Int.floor_eq_iff]
  constructor
  · push_cast
    linarith
  · push_cast
    linarith

theorem setMaxTileSideLength_square (n T : ℕ) (hn : 0 < n) :
    setMaxTileSideLength n n T = (T, T) := by
  unfold setMaxTileSideLength
  rw [if_neg (lt_irrefl n)]
  have haspect : (n : ℚ) / (n : ℚ) = 1 := div_self (by positivity)
  rw [haspect, mul_one, cTruncQ_nat_add_half]
  simp

theorem sampleCoord_zero (c1 c2 ts : ℕ) :
    sampleCoord c1 c2 ts 0 = min (c1 : ℤ) (c2 : ℤ) := by
  unfold sampleCoord
  norm_num [cTruncQ_nat_add_half]

theorem root_not_transparent (img : SkyImage) (tsx tsy x2 y2 : ℕ)
    (htx : 0 < tsx) (hty : 0 < tsy) (hw : 0 < img.width)
    (hh : 0 < img.height) (ha : (img.pix 0 0).a ≠ 0) :
    (splitSampleFold img 0 0 x2 y2 tsx tsy).2.1 = false := by
  rw [splitSampleFold_isT]
  rw [Bool.eq_false_iff]
  intro hall
  rw [List.all_eq_true] at hall
  have h0 := hall 0 (List.mem_range.mpr htx)
  rw [List.all_eq_true] at h0
  have h00 := h0 0 (List.mem_range.mpr hty)
  unfold tileSampleOk at h00
  rw [sampleCoord_zero, sampleCoord_zero] at h00
  have hx0 : min ((0 : ℕ) : ℤ) ((x2 : ℕ) : ℤ) = 0 := by
    simp
  have hy0 : min ((0 : ℕ) : ℤ) ((y2 : ℕ) : ℤ) = 0 := by
    simp
  rw [hx0, hy0] at h00
  rw [if_neg (by omega)] at h00
  exact ha (by simpa using h00)

theorem splitTile_leaf (img : SkyImage) (tsx tsy : ℕ) (htx : 0 < tsx)
    (hty : 0 < tsy) (level x1 y1 x2 y2 : ℕ)
    (hguard : x2 - x1 ≤ tsx ∨ y2 - y1 ≤ tsy) :
    splitTile img tsx tsy htx hty level x1 y1 x2 y2 =
      [⟨level, x1, y1, x2, y2, (splitSampleFold img x1 y1 x2 y2 tsx tsy).1,
        (splitSampleFold img x1 y1 x2 y2 tsx tsy).2.1,
        (splitSampleFold img x1 y1 x2 y2 tsx tsy).2.2⟩] := by
  rw [splitTile]
  rcases hguard with h | h
  · rw [if_pos (Or.inl h)]
  · rw [if_pos (Or.inr (Or.inl h))]

theorem splitTile_node (img : SkyImage) (tsx tsy : ℕ) (htx : 0 < tsx)
    (hty : 0 < tsy) (level x1 y1 x2 y2 : ℕ)
    (hgx : ¬ x2 - x1 ≤ tsx) (hgy : ¬ y2 - y1 ≤ tsy)
    (hflag : (splitSampleFold img x1 y1 x2 y2 tsx tsy).2.1 = false) :
    splitTile img tsx tsy htx hty level x1 y1 x2 y2 =
      ⟨level, x1, y1, x2, y2, (splitSampleFold img x1 y1 x2 y2 tsx tsy).1,
        (splitSampleFold img x1 y1 x2 y2 tsx tsy).2.1,
        (splitSampleFold img x1 y1 x2 y2 tsx tsy).2.2⟩ ::
      (splitTile img tsx tsy htx hty (level + 1) x1 y1
          ((x1 + x2) / 2) ((y1 + y2) / 2) ++
        (splitTile img tsx tsy htx hty (level + 1) ((x1 + x2) / 2) y1 x2
            ((y1 + y2) / 2) ++
          (splitTile img tsx tsy htx hty (level + 1) x1 ((y1 + y2) / 2)
              ((x1 + x2) / 2) y2 ++
            splitTile img tsx tsy htx hty (level + 1) ((x1 + x2) / 2)
              ((y1 + y2) / 2) x2 y2))) := by
  rw [splitTile]
  rw [if_neg]
  rw [hflag]
  simp [hgx, hgy]

theorem splitTile_leaf_transparent (img : SkyImage) (tsx tsy : ℕ)
    (htx : 0 < tsx) (hty : 0 < tsy) (level x1 y1 x2 y2 : ℕ)
    (hflag : (splitSampleFold img x1 y1 x2 y2 tsx tsy).2.1 = true) :
    splitTile img tsx tsy htx hty level x1 y1 x2 y2 =
      [⟨level, x1, y1, x2, y2, (splitSampleFold img x1 y1 x2 y2 tsx tsy).1,
        (splitSampleFold img x1 y1 x2 y2 tsx tsy).2.1,
        (splitSampleFold img x1 y1 x2 y2 tsx tsy).2.2⟩] := by
  rw [splitTile]
  rw [if_pos (Or.inr (Or.inr hflag))]

theorem splitTile_shape_from_flags (img1 img2 : SkyImage) (tsx tsy : ℕ)
    (htx : 0 < tsx) (hty : 0 < tsy)
    (hflags : ∀ a b c d : ℕ,
      (splitSampleFold img1 a b c d tsx tsy).2.1 =
        (splitSampleFold img2 a b c d tsx tsy).2.1) :
    ∀ (m level x1 y1 x2 y2 : ℕ), (x2 - x1) + (y2 - y1) = m →
      tileShape (splitTile img1 tsx tsy htx hty level x1 y1 x2 y2) =
        tileShape (splitTile img2 tsx tsy htx hty level x1 y1 x2 y2) := by
  intro m
  induction m using Nat.strong_induction_on with
  | _ m ih =>
    intro level x1 y1 x2 y2 hm
    by_cases hgx : x2 - x1 ≤ tsx
    · rw [splitTile_leaf img1 tsx tsy htx hty level x1 y1 x2 y2 (Or.inl hgx),
        splitTile_leaf img2 tsx tsy htx hty level x1 y1 x2 y2 (Or.inl hgx)]
      rfl
    · by_cases hgy : y2 - y1 ≤ tsy
      · rw [splitTile_leaf img1 tsx tsy htx hty level x1 y1 x2 y2
            (Or.inr hgy),
          splitTile_leaf img2 tsx tsy htx hty level x1 y1 x2 y2
            (Or.inr hgy)]
        rfl
      · by_cases hf : (splitSampleFold img1 x1 y1 x2 y2 tsx tsy).2.1 = true
        · rw [splitTile_leaf_transparent img1 tsx tsy htx hty level
              x1 y1 x2 y2 hf,
            splitTile_leaf_transparent img2 tsx tsy htx hty level
              x1 y1 x2 y2 ((hflags x1 y1 x2 y2).symm.trans hf)]
          rfl
        · have hf1 : (splitSampleFold img1 x1 y1 x2 y2 tsx tsy).2.1 =
              false := Bool.eq_false_iff.mpr hf
          have hf2 : (splitSampleFold img2 x1 y1 x2 y2 tsx tsy).2.1 =
              false := (hflags x1 y1 x2 y2).symm.trans hf1
          rw [splitTile_node img1 tsx tsy htx hty level x1 y1 x2 y2
              hgx hgy hf1,
            splitTile_node img2 tsx tsy htx hty level x1 y1 x2 y2
              hgx hgy hf2]
          unfold tileShape
          simp only [List.map_cons, List.map_append]
          have e1 := ih (((x1 + x2) / 2 - x1) + ((y1 + y2) / 2 - y1))
            (by omega) (level + 1) x1 y1 ((x1 + x2) / 2) ((y1 + y2) / 2) rfl
          have e2 := ih ((x2 - (x1 + x2) / 2) + ((y1 + y2) / 2 - y1))
            (by omega) (level + 1) ((x1 + x2) / 2) y1 x2 ((y1 + y2) / 2) rfl
          have e3 := ih (((x1 + x2) / 2 - x1) + (y2 - (y1 + y2) / 2))
            (by omega) (level + 1) x1 ((y1 + y2) / 2) ((x1 + x2) / 2) y2 rfl
          have e4 := ih ((x2 - (x1 + x2) / 2) + (y2 - (y1 + y2) / 2))
            (by omega) (level + 1) ((x1 + x2) / 2) ((y1 + y2) / 2) x2 y2 rfl
          unfold tileShape at e1 e2 e3 e4
          rw [e1, e2, e3, e4]

/-- Claim C3, amended: for every tile size T at least 2, regionating an
all-opaque warped image with width = height = 2T (tile sizes chosen by
`SetMaxTileSideLength`, which yields exactly T x T for a square image)
produces exactly 5 tiles — the level-0 root plus its four level-1
quadrants; and the (level, rectangle) shape of the produced tile set
depends only on the dimensions, the tile sizes and the per-rectangle
transparency of the sampled tiles (two images whose sampled tiles agree on
transparency produce the same shape).  For T = 1 the root rectangle
already spans at most one tile and only 1 tile is produced, so the claim's
"every tile size" fails. -/
theorem c3_quadtree_tiles (T : ℕ) (hT : 2 ≤ T) (htx : 0 < T)
    (img : SkyImage) (hw : img.width = 2 * T) (hh : img.height = 2 * T)
    (hfull : ∀ x y : ℤ, 0 ≤ x → x < (img.width : ℤ) → 0 ≤ y →
      y < (img.height : ℤ) → (img.pix x y).a = 255) :
    setMaxTileSideLength img.width img.height T = (T, T) ∧
      (regionateTiles img T T htx htx).length = 5 ∧
      (regionateTiles img T T htx htx).map TileRec.level = [0, 1, 1, 1, 1] ∧
      (∀ (img1 img2 : SkyImage) (tsx tsy : ℕ) (ht1 : 0 < tsx)
        (ht2 : 0 < tsy),
        (∀ a b c d : ℕ,
          (splitSampleFold img1 a b c d tsx tsy).2.1 =
            (splitSampleFold img2 a b c d tsx tsy).2.1) →
        ∀ level x1 y1 x2 y2,
          tileShape (splitTile img1 tsx tsy ht1 ht2 level x1 y1 x2 y2) =
            tileShape (splitTile img2 tsx tsy ht1 ht2 level x1 y1 x2 y2)) := by
  have hsq : setMaxTileSideLength img.width img.height T = (T, T) := by
    rw [hw, hh]
    exact setMaxTileSideLength_square (2 * T) T (by omega)
  have hpad : pad (2 * T) T = 0 :=
    (pad_spec (2 * T) T htx).2.2.2 ⟨2, by ring⟩
  have ha00 : (img.pix 0 0).a ≠ 0 := by
    rw [hfull 0 0 le_rfl (by rw [hw]; exact_mod_cast (by omega : 0 < 2 * T))
      le_rfl (by rw [hh]; exact_mod_cast (by omega : 0 < 2 * T))]
    norm_num
  have hflag : (splitSampleFold img 0 0 (2 * T - 1) (2 * T - 1) T T).2.1 =
      false :=
    root_not_transparent img T T (2 * T - 1) (2 * T - 1) htx htx
      (by omega) (by omega) ha00
  have hroot : regionateTiles img T T htx htx =
      splitTile img T T htx htx 0 0 0 (2 * T - 1) (2 * T - 1) := by
    simp only [regionateTiles, hw, hh, hpad, Nat.add_zero]
  have hmid : (0 + (2 * T - 1)) / 2 = T - 1 := by omega
  have hlist : regionateTiles img T T htx htx =
      ⟨0, 0, 0, 2 * T - 1, 2 * T - 1,
        (splitSampleFold img 0 0 (2 * T - 1) (2 * T - 1) T T).1,
        (splitSampleFold img 0 0 (2 * T - 1) (2 * T - 1) T T).2.1,
        (splitSampleFold img 0 0 (2 * T - 1) (2 * T - 1) T T).2.2⟩ ::
      ([⟨1, 0, 0, T - 1, T - 1,
          (splitSampleFold img 0 0 (T - 1) (T - 1) T T).1,
          (splitSampleFold img 0 0 (T - 1) (T - 1) T T).2.1,
          (splitSampleFold img 0 0 (T - 1) (T - 1) T T).2.2⟩] ++
        ([⟨1, T - 1, 0, 2 * T - 1, T - 1,
            (splitSampleFold img (T - 1) 0 (2 * T - 1) (T - 1) T T).1,
            (splitSampleFold img (T - 1) 0 (2 * T - 1) (T - 1) T T).2.1,
            (splitSampleFold img (T - 1) 0 (2 * T - 1) (T - 1) T T).2.2⟩] ++
          ([⟨1, 0, T - 1, T - 1, 2 * T - 1,
              (splitSampleFold img 0 (T - 1) (T - 1) (2 * T - 1) T T).1,
              (splitSampleFold img 0 (T - 1) (T - 1) (2 * T - 1) T T).2.1,
              (splitSampleFold img 0 (T - 1) (T - 1) (2 * T - 1) T T).2.2⟩] ++
            [⟨1, T - 1, T - 1, 2 * T - 1, 2 * T - 1,
              (splitSampleFold img (T - 1) (T - 1) (2 * T - 1) (2 * T - 1)
                T T).1,
              (splitSampleFold img (T - 1) (T - 1) (2 * T - 1) (2 * T - 1)
                T T).2.1,
              (splitSampleFold img (T - 1) (T - 1) (2 * T - 1) (2 * T - 1)
                T T).2.2⟩]))) := by
    rw [hroot, splitTile_node img T T htx htx 0 0 0 (2 * T - 1) (2 * T - 1)
      (by omega) (by omega) hflag]
    rw [hmid]
    rw [splitTile_leaf img T T htx htx 1 0 0 (T - 1) (T - 1)
        (Or.inl (by omega)),
      splitTile_leaf img T T htx htx 1 (T - 1) 0 (2 * T - 1) (T - 1)
        (Or.inl (by omega)),
      splitTile_leaf img T T htx htx 1 0 (T - 1) (T - 1) (2 * T - 1)
        (Or.inl (by omega)),
      splitTile_leaf img T T htx htx 1 (T - 1) (T - 1) (2 * T - 1)
        (2 * T - 1) (Or.inl (by omega))]
  refine ⟨hsq, ?_, ?_, ?_⟩
  · rw [hlist]
    rfl
  · rw [hlist]
    rfl
  · intro img1 img2 tsx tsy ht1 ht2 hfl level x1 y1 x2 y2
    exact splitTile_shape_from_flags img1 img2 tsx tsy ht1 ht2 hfl
      ((x2 - x1) + (y2 - y1)) level x1 y1 x2 y2 rfl

/-- Claim C3, counterexample: at tile size T = 1 an all-opaque 2x2 image
(W = H = 2T) yields exactly 1 tile, not 5: the root rectangle (0,0)-(1,1)
spans x2 - x1 = 1 <= 1 = tile size, so the recursion stops at level 0. -/
theorem c3_tile_size_one_counterexample :
    setMaxTileSideLength (opaqueImage 2 2).width (opaqueImage 2 2).height 1 =
        (1, 1) ∧
      (regionateTiles (opaqueImage 2 2) 1 1 one_pos one_pos).length = 1 ∧
      (regionateTiles (opaqueImage 2 2) 1 1 one_pos one_pos).length ≠ 5 := by
  have hsq : setMaxTileSideLength (opaqueImage 2 2).width
      (opaqueImage 2 2).height 1 = (1, 1) :=
    setMaxTileSideLength_square 2 1 (by norm_num)
  have hroot : regionateTiles (opaqueImage 2 2) 1 1 one_pos one_pos =
      splitTile (opaqueImage 2 2) 1 1 one_pos one_pos 0 0 0 1 1 := rfl
  have hleaf := splitTile_leaf (opaqueImage 2 2) 1 1 one_pos one_pos
    0 0 0 1 1 (Or.inl (by norm_num))
  refine ⟨hsq, ?_, ?_⟩
  · rw [hroot, hleaf]
    rfl
  · rw [hroot, hleaf]
    norm_num

/-- Claim C3, witness: the amended statement applied at T = 2 to an opaque
4x4 image. -/
theorem c3_quadtree_tiles_witness :
    (regionateTiles (opaqueImage 4 4) 2 2 (by norm_num) (by norm_num)).length
        = 5 ∧
      (regionateTiles (opaqueImage 4 4) 2 2 (by norm_num)
        (by norm_num)).map TileRec.level = [0, 1, 1, 1, 1] := by
  have h := c3_quadtree_tiles 2 le_rfl (by norm_num) (opaqueImage 4 4)
    rfl rfl (fun _ _ _ _ _ _ => rfl)
  exact ⟨h.2.1, h.2.2.1⟩

theorem arccos_lt_of_cos_lt {a c : ℝ} (ha0 : 0 ≤ a) (hc1 : c ≤ 1)
    (hm1 : -1 ≤ c) (h : Real.cos a < c) : Real.arccos c < a := by
  by_contra hcon
  push_neg at hcon
  have h1 : Real.cos (Real.arccos c) ≤ Real.cos a :=
    Real.cos_le_cos_of_nonneg_of_le_pi ha0 (Real.arccos_le_pi c) hcon
  rw [Real.cos_arccos hm1 hc1] at h1
  linarith

theorem lt_arccos_of_lt_cos {a c : ℝ} (haπ : a ≤ Real.pi) (hc1 : c ≤ 1)
    (hm1 : -1 ≤ c) (h : c < Real.cos a) : a < Real.arccos c := by
  by_contra hcon
  push_neg at hcon
  have h1 : Real.cos a ≤ Real.cos (Real.arccos c) :=
    Real.cos_le_cos_of_nonneg_of_le_pi (Real.arccos_nonneg c) haπ hcon
  rw [Real.cos_arccos hm1 hc1] at h1
  linarith

theorem cos_badAngle_small :
    Real.cos (89.9 * piConst / 180) < 1/500 := by
  have ha : 89.9 * piConst / 180 = Real.pi / 2 -
      (Real.pi / 2 - 89.9 * piConst / 180) := by ring
  rw [ha, Real.cos_pi_div_two_sub]
  have hpos : 0 < Real.pi / 2 - 89.9 * piConst / 180 := by
    have := Real.pi_gt_d6
    norm_num [piConst] at *
    linarith
  have hlt := Real.sin_lt hpos
  have hub : Real.pi / 2 - 89.9 * piConst / 180 < 1/500 := by
    have := Real.pi_lt_d6
    norm_num [piConst] at *
    linarith
  linarith

theorem cos_smallAngle_large :
    3/5 < Real.cos (1/10 * piConst / 180) := by
  have h := Real.one_sub_sq_div_two_le_cos
    (x := (1/10 * piConst / 180 : ℝ))
  have hb : 1 - (1/10 * piConst / 180 : ℝ) ^ 2 / 2 > 3/5 := by
    norm_num [piConst]
  linarith

/-- Claim C7, amended: `DetermineProjectedSize` produces strictly positive
width and height for every non-degenerate bounding box whose `dec_min`
corner does not exceed `ra_max` in ra (always true for boxes produced by
the bounding-box finder) and whose two rounded side lengths are at least
one pixel, for positive input image dimensions — in all branches including
the four special-cased rotation angles.  (Rounded side lengths of 0, which
distinct corner points closer than half a pixel produce, make the general
branch return 0.) -/
theorem c7_projected_size_positive (b : BoundingBoxR) (iw ih : ℤ)
    (hiw : 0 < iw) (hih : 0 < ih) (hnd : NondegenerateBox b)
    (hra : b.dec_min.ra ≤ b.ra_max.ra)
    (he : 1 ≤ roundR (distanceXY b.ra_max b.dec_min))
    (hn : 1 ≤ roundR (distanceXY b.ra_min b.dec_min)) :
    0 < (determineProjectedSize b iw ih).1 ∧
      0 < (determineProjectedSize b iw ih).2 := by
  have hd0 : 0 ≤ distanceRaDec b.ra_max b.dec_min := Real.sqrt_nonneg _
  have hden : 0 < distanceRaDec b.ra_max b.dec_min + tinyFloatValue := by
    have : (0 : ℝ) < tinyFloatValue := by norm_num [tinyFloatValue]
    linarith
  have hc0 : 0 ≤ (b.ra_max.ra - b.dec_min.ra) /
      (distanceRaDec b.ra_max b.dec_min + tinyFloatValue) :=
    div_nonneg (by linarith) hden.le
  have hθ0 : 0 ≤ Real.arccos ((b.ra_max.ra - b.dec_min.ra) /
      (distanceRaDec b.ra_max b.dec_min + tinyFloatValue)) :=
    Real.arccos_nonneg _
  have hθπ2 : Real.arccos ((b.ra_max.ra - b.dec_min.ra) /
      (distanceRaDec b.ra_max b.dec_min + tinyFloatValue)) ≤ Real.pi / 2 :=
    Real.arccos_le_pi_div_two.mpr hc0
  simp only [determineProjectedSize]
  set θ := Real.arccos ((b.ra_max.ra - b.dec_min.ra) /
    (distanceRaDec b.ra_max b.dec_min + tinyFloatValue)) with hθ
  have hcos : 0 ≤ Real.cos θ :=
    Real.cos_nonneg_of_neg_pi_div_two_le_of_le (by linarith [Real.pi_pos])
      hθπ2
  have hsin : 0 ≤ Real.sin θ :=
    Real.sin_nonneg_of_nonneg_of_le_pi hθ0 (by linarith [Real.pi_pos])
  have hsum : 1 ≤ Real.cos θ + Real.sin θ := by
    nlinarith [Real.sin_sq_add_cos_sq θ, Real.sin_le_one θ,
      Real.cos_le_one θ]
  have heR : (1 : ℝ) ≤ (roundR (distanceXY b.ra_max b.dec_min) : ℝ) := by
    exact_mod_cast he
  have hnR : (1 : ℝ) ≤ (roundR (distanceXY b.ra_min b.dec_min) : ℝ) := by
    exact_mod_cast hn
  have hval1 : 1 ≤ Real.cos θ * (roundR (distanceXY b.ra_max b.dec_min) : ℝ)
      + Real.sin θ * (roundR (distanceXY b.ra_min b.dec_min) : ℝ) := by
    nlinarith
  have hval2 : 1 ≤ Real.sin θ * (roundR (distanceXY b.ra_max b.dec_min) : ℝ)
      + Real.cos θ * (roundR (distanceXY b.ra_min b.dec_min) : ℝ) := by
    nlinarith
  have hpos : ∀ v : ℝ, 1 ≤ v → 0 < roundR v := by
    intro v hv
    unfold roundR cTruncR
    rw [if_neg (by push_neg; linarith)]
    rw [Int.lt_iff_add_one_le]
    simpa using Int.le_floor.mpr (by push_cast; linarith)
  split
  · exact ⟨hiw, hih⟩
  · split
    · exact ⟨hih, hiw⟩
    · exact ⟨hpos _ hval1, hpos _ hval2⟩

/-- Claim C7, counterexample: `cexBoxR` is non-degenerate (four pairwise
distinct corner points, positive ra and dec extents), the image dimensions
10 x 10 are positive, the rotation angle sits near 53 degrees — far from
the four special cases — yet both rounded side lengths are 0 (the three
relevant corners are under half a pixel apart), so `DetermineProjectedSize`
returns (0, 0) and the positivity assertions fail. -/
theorem c7_zero_size_counterexample :
    NondegenerateBox cexBoxR ∧
      ¬ (0 < (determineProjectedSize cexBoxR 10 10).1 ∧
          0 < (determineProjectedSize cexBoxR 10 10).2) := by
  constructor
  · refine ⟨?_, ?_, ?_, ?_, ?_, ?_, ?_, ?_⟩ <;>
      simp [cexBoxR, PointR.mk.injEq] <;> norm_num
  · have hdrd : distanceRaDec cexBoxR.ra_max cexBoxR.dec_min = 1/2 := by
      show Real.sqrt (((10 : ℝ) - 10.3) ^ 2 + ((0 : ℝ) - 0.4) ^ 2) = 1/2
      rw [show ((10 : ℝ) - 10.3) ^ 2 + ((0 : ℝ) - 0.4) ^ 2 = (1/2) ^ 2 by
        norm_num]
      exact Real.sqrt_sq (by norm_num)
    have heast : roundR (distanceXY cexBoxR.ra_max cexBoxR.dec_min) = 0 := by
      have h1 : distanceXY cexBoxR.ra_max cexBoxR.dec_min = 3/10 := by
        show Real.sqrt (((0.3 : ℝ) - 0) ^ 2 + ((0 : ℝ) - 0) ^ 2) = 3/10
        rw [show ((0.3 : ℝ) - 0) ^ 2 + ((0 : ℝ) - 0) ^ 2 = (3/10) ^ 2 by
          norm_num]
        exact Real.sqrt_sq (by norm_num)
      rw [h1]
      unfold roundR cTruncR
      rw [if_neg (by norm_num)]
      rw [Int.floor_eq_zero_iff]
      constructor <;> norm_num
    have hnorth : roundR (distanceXY cexBoxR.ra_min cexBoxR.dec_min) = 0 := by
      have hlt : distanceXY cexBoxR.ra_min cexBoxR.dec_min < 1/2 := by
        show Real.sqrt (((0.3 : ℝ) - 0) ^ 2 + ((0 : ℝ) - 0.3) ^ 2) < 1/2
        rw [Real.sqrt_lt' (by norm_num)]
        norm_num
      have hge : 0 ≤ distanceXY cexBoxR.ra_min cexBoxR.dec_min :=
        Real.sqrt_nonneg _
      unfold roundR cTruncR
      rw [if_neg (by push_neg; linarith)]
      rw [Int.floor_eq_zero_iff]
      constructor
      · linarith
      · norm_num
        linarith
    have hcval : (cexBoxR.ra_max.ra - cexBoxR.dec_min.ra) /
        (distanceRaDec cexBoxR.ra_max cexBoxR.dec_min + tinyFloatValue) =
        (10.3 - 10) / (1/2 + 1/100000000) := by
      rw [hdrd]
      norm_num [cexBoxR, tinyFloatValue]
    have hc_lo : (59/100 : ℝ) < (10.3 - 10) / (1/2 + 1/100000000) := by
      norm_num
    have hc_hi : ((10.3 - 10) / (1/2 + 1/100000000) : ℝ) < 3/5 := by
      norm_num
    have hθ_hi : Real.arccos ((10.3 - 10) / (1/2 + 1/100000000)) <
        89.9 * piConst / 180 :=
      arccos_lt_of_cos_lt (by norm_num [piConst]) (by linarith)
        (by linarith) (lt_trans cos_badAngle_small (by linarith))
    have hθ_lo : 1/10 * piConst / 180 <
        Real.arccos ((10.3 - 10) / (1/2 + 1/100000000)) := by
      apply lt_arccos_of_lt_cos
      · have := Real.pi_gt_d6
        norm_num [piConst]
        linarith
      · linarith
      · linarith
      · exact lt_trans hc_hi cos_smallAngle_large
    have hθ0 : 0 ≤ Real.arccos ((10.3 - 10) / (1/2 + 1/100000000)) :=
      Real.arccos_nonneg _
    have hθd_hi : Real.arccos ((10.3 - 10) / (1/2 + 1/100000000)) *
        (180 / piConst) < 899/10 := by
      have hp : (0 : ℝ) < 180 / piConst := by norm_num [piConst]
      have h2 := mul_lt_mul_of_pos_right hθ_hi hp
      have h3 : (89.9 * piConst / 180) * (180 / piConst) = 899/10 := by
        norm_num [piConst]
      linarith
    have hθd_lo : (1/10 : ℝ) < Real.arccos ((10.3 - 10) /
        (1/2 + 1/100000000)) * (180 / piConst) := by
      have hp : (0 : ℝ) < 180 / piConst := by norm_num [piConst]
      have h2 := mul_lt_mul_of_pos_right hθ_lo hp
      have h3 : (1/10 * piConst / 180) * (180 / piConst) = 1/10 := by
        norm_num [piConst]
      linarith
    have hθd0 : 0 ≤ Real.arccos ((10.3 - 10) / (1/2 + 1/100000000)) *
        (180 / piConst) := by
      have hp : (0 : ℝ) ≤ 180 / piConst := by norm_num [piConst]
      exact mul_nonneg hθ0 hp
    have hdps : determineProjectedSize cexBoxR 10 10 = (0, 0) := by
      simp only [determineProjectedSize]
      rw [hcval, heast, hnorth]
      rw [if_neg, if_neg]
      · have hr0 : roundR 0 = 0 := by
          unfold roundR cTruncR
          rw [if_neg (by norm_num)]
          rw [Int.floor_eq_zero_iff]
          constructor <;> norm_num
        norm_num [hr0]
      · intro hor
        rcases hor with h | h
        · rw [abs_lt] at h
          norm_num [tinyThetaValue] at h
          linarith [hθd_lo]
        · rw [abs_lt] at h
          norm_num [tinyThetaValue] at h
          linarith [hθd_hi]
      · intro hor
        rcases hor with h | h
        · rw [abs_lt] at h
          norm_num [tinyThetaValue] at h
          linarith [hθd_hi]
        · rw [abs_lt] at h
          norm_num [tinyThetaValue] at h
          linarith [hθd_hi]
    rw [hdps]
    norm_num

/-- Claim C7, witness: the positivity statement applied to `witBoxR`, whose
two rounded side lengths evaluate to 5 (3-4-5 pixel triangles), with a
7 x 9 source image. -/
theorem c7_projected_size_positive_witness :
    0 < (determineProjectedSize witBoxR 7 9).1 ∧
      0 < (determineProjectedSize witBoxR 7 9).2 := by
  have he : roundR (distanceXY witBoxR.ra_max witBoxR.dec_min) = 5 := by
    have h1 : distanceXY witBoxR.ra_max witBoxR.dec_min = 5 := by
      show Real.sqrt (((0 : ℝ) - 4) ^ 2 + ((3 : ℝ) - 0) ^ 2) = 5
      rw [show ((0 : ℝ) - 4) ^ 2 + ((3 : ℝ) - 0) ^ 2 = (5 : ℝ) ^ 2 by
        norm_num]
      exact Real.sqrt_sq (by norm_num)
    rw [h1]
    unfold roundR cTruncR
    rw [if_neg (by norm_num)]
    exact Int.floor_eq_iff.mpr ⟨by norm_num, by norm_num⟩
  have hn : roundR (distanceXY witBoxR.ra_min witBoxR.dec_min) = 5 := by
    have h1 : distanceXY witBoxR.ra_min witBoxR.dec_min = 5 := by
      show Real.sqrt (((0 : ℝ) - 3) ^ 2 + ((3 : ℝ) - 7) ^ 2) = 5
      rw [show ((0 : ℝ) - 3) ^ 2 + ((3 : ℝ) - 7) ^ 2 = (5 : ℝ) ^ 2 by
        norm_num]
      exact Real.sqrt_sq (by norm_num)
    rw [h1]
    unfold roundR cTruncR
    rw [if_neg (by norm_num)]
    exact Int.floor_eq_iff.mpr ⟨by norm_num, by norm_num⟩
  exact c7_projected_size_positive witBoxR 7 9 (by norm_num) (by norm_num)
    (by refine ⟨?_, ?_, ?_, ?_, ?_, ?_, ?_, ?_⟩ <;>
      simp [witBoxR, PointR.mk.injEq] <;> norm_num)
    (by norm_num [witBoxR]) (by rw [he]; norm_num) (by rw [hn]; norm_num)
